import Mathlib

/-!
# A shallow embedding of the `ljghy/json-parser` core (src/JsonParser.hpp)

Strings and input are byte lists (`List Nat`, each element a byte value).  `JsonNode` mirrors the
C++ tagged union with its eight internal type ids.  The parser mirrors `JsonParser::parseLoop`:
the C++ `m_nodeStack` of pointers into the growing tree is represented as a zipper — the node the
top pointer designates (`focus`) plus one `Frame` per stack entry below it; `applyFrame` writes a
finished child back into its parent exactly as the C++ code's in-place mutation does.  The loop
itself is fuel-indexed (each C++ loop iteration consumes at least one input character, so
`input.length + 1` units of fuel always suffice; this is proved below as `parseLoop_mono` plus
the simulation lemmas).  The serializer mirrors `JsonNode::Serializer::dump` with the default
settings (`precision = -1`, `indent = -1`, i.e. compact, `ascii = true`), including the exact
byte-by-byte behaviour of `dumpJsonString`, `decodeUtf8` and `toHex4`.
-/

/-- The error taxonomy of `detail::JsonErrorCode` (src/JsonParser.hpp:222-235). -/
inductive JsonErrorCode : Type where
  | InvalidJson
  | UnexpectedEndOfInput
  | InvalidLiteral
  | InvalidNumber
  | InvalidString
  | InvalidCharacter
  | InvalidUnicode
  | InvalidEscapeSequence
  | InvalidKeyValuePair
  | InvalidArrayOrObject
  | InvalidJsonAccess
  deriving DecidableEq, Repr

/-- The tagged value type `JsonNode` (src/JsonParser.hpp:251-1305).  The eight constructors are
the eight internal type ids `NullType_ .. ObjType_`; `double` payloads are modelled by the exact
rational value the decimal literal denotes (see `strtodVal`), strings by their byte lists, and
objects by their key-sorted entry lists (`std::map<std::string, JsonNode>`). -/
inductive JsonNode : Type where
  | null
  | bool (b : Bool)
  | double (d : ℚ)
  | int (i : Int)
  | uint (u : Nat)
  | str (s : List Nat)
  | arr (a : List JsonNode)
  | obj (o : List (List Nat × JsonNode))
  deriving Repr

abbrev JsonObj : Type := List (List Nat × JsonNode)

/-- Lexicographic byte-string comparison: the ordering of `std::map<std::string, JsonNode>`
(`std::string::operator<` compares as unsigned char). -/
def keyLt : List Nat → List Nat → Bool
  | [], [] => false
  | [], _ :: _ => true
  | _ :: _, [] => false
  | a :: as, b :: bs => if a < b then true else if b < a then false else keyLt as bs

/-- `std::map::find`. -/
def objFind (k : List Nat) : JsonObj → Option JsonNode
  | [] => none
  | (k', v) :: o => if k' = k then some v else objFind k o

/-- Removal of a key (used to state the slot taken by `std::map::emplace` on an existing key). -/
def objErase (k : List Nat) : JsonObj → JsonObj
  | [] => []
  | (k', v) :: o => if k' = k then o else (k', v) :: objErase k o

/-- Sorted insert-or-assign into the key-sorted entry list; this is how a finished value is
written back through the `std::map` iterator obtained from `emplace`. -/
def objInsert (k : List Nat) (v : JsonNode) : JsonObj → JsonObj
  | [] => [(k, v)]
  | (k', v') :: o =>
    if keyLt k k' then (k, v) :: (k', v') :: o
    else if k' = k then (k, v) :: o
    else (k', v') :: objInsert k v o

/-! ## Parser helper functions (character level) -/

def isDigitB (c : Nat) : Bool := 48 ≤ c && c ≤ 57

def isSpaceB (c : Nat) : Bool := c = 32 || c = 9 || c = 10 || c = 13

/-- `JsonParser::skipSpace` (src/JsonParser.hpp:1606-1612). -/
def skipSpace (input : List Nat) : List Nat := input.dropWhile isSpaceB

/-- One literal-matching attempt: the chain of `!is.eoi() && is.get() == c` conjunctions in
`parseLiteral`.  On a mismatching character, that character has already been consumed by
`is.get()`; at end of input nothing is consumed. -/
def munch : List Nat → List Nat → Bool × List Nat
  | [], s => (true, s)
  | _ :: _, [] => (false, [])
  | l :: ls, c :: s => if c = l then munch ls s else (false, s)

/-- `JsonParser::parseLiteral` (src/JsonParser.hpp:1614-1643).  The three branches are tried in
order on the *current* stream, so a partially consumed `n` branch falls through to the `t` and
`f` tests (a quirk of the source, reproduced here).  `is.ch()` at end of input is undefined
behaviour of the string-view stream; it is modelled as the byte 0, which matches none of the
tested characters. -/
def parseLiteral (input : List Nat) : Except JsonErrorCode (JsonNode × List Nat) :=
  match (if input.headD 0 = 110 then munch [117, 108, 108] input.tail else (false, input)) with
  | (true, s) => .ok (.null, s)
  | (false, s) =>
    match (if s.headD 0 = 116 then munch [114, 117, 101] s.tail else (false, s)) with
    | (true, s') => .ok (.bool true, s')
    | (false, s') =>
      match (if s'.headD 0 = 102 then munch [97, 108, 115, 101] s'.tail else (false, s')) with
      | (true, s'') => .ok (.bool false, s'')
      | (false, _) => .error .InvalidLiteral

/-- Value of one hexadecimal digit character, or `none`. -/
def hexDigitVal (c : Nat) : Option Nat :=
  if 48 ≤ c && c ≤ 57 then some (c - 48)
  else if 97 ≤ c && c ≤ 102 then some (c - 97 + 10)
  else if 65 ≤ c && c ≤ 70 then some (c - 65 + 10)
  else none

/-- One iteration of the digit loop of `parseHex4`: end of input is `InvalidString`, a non-hex
character is `InvalidUnicode` (src/JsonParser.hpp:1733-1755). -/
def parseHex4Step (u : Nat) (input : List Nat) : Except JsonErrorCode (Nat × List Nat) :=
  match input with
  | [] => .error .InvalidString
  | c :: s =>
    match hexDigitVal c with
    | some v => .ok (u <<< 4 ||| v, s)
    | none => .error .InvalidUnicode

/-- `JsonParser::parseHex4` (src/JsonParser.hpp:1733-1755): four digit iterations. -/
def parseHex4 (input : List Nat) : Except JsonErrorCode (Nat × List Nat) :=
  match parseHex4Step 0 input with
  | .error e => .error e
  | .ok (u, s) =>
    match parseHex4Step u s with
    | .error e => .error e
    | .ok (u, s) =>
      match parseHex4Step u s with
      | .error e => .error e
      | .ok (u, s) =>
        match parseHex4Step u s with
        | .error e => .error e
        | .ok (u, s) => .ok (u, s)

/-- `JsonParser::encodeUtf8` (src/JsonParser.hpp:1784-1800): the bytes appended for code point
`u`. -/
def encodeUtf8 (u : Nat) : List Nat :=
  if u ≤ 0x7F then [u &&& 0xFF]
  else if u ≤ 0x7FF then [0xC0 ||| (u >>> 6 &&& 0xFF), 0x80 ||| (u &&& 0x3F)]
  else if u ≤ 0xFFFF then
    [0xE0 ||| (u >>> 12 &&& 0xFF), 0x80 ||| (u >>> 6 &&& 0x3F), 0x80 ||| (u &&& 0x3F)]
  else
    [0xF0 ||| (u >>> 18 &&& 0xFF), 0x80 ||| (u >>> 12 &&& 0x3F), 0x80 ||| (u >>> 6 &&& 0x3F),
     0x80 ||| (u &&& 0x3F)]

/-- `JsonParser::parseEscape` (src/JsonParser.hpp:1672-1731), entered after the `\` has been
consumed.  Returns the bytes appended to the string buffer and the remaining input. -/
def parseEscape (input : List Nat) : Except JsonErrorCode (List Nat × List Nat) :=
  match input with
  | [] => .error .InvalidString
  | c :: s =>
    if c = 34 || c = 92 || c = 47 then .ok ([c], s)
    else if c = 98 then .ok ([8], s)
    else if c = 102 then .ok ([12], s)
    else if c = 110 then .ok ([10], s)
    else if c = 114 then .ok ([13], s)
    else if c = 116 then .ok ([9], s)
    else if c = 117 then
      match parseHex4 s with
      | .error e => .error e
      | .ok (u, s1) =>
        if 0xD800 ≤ u && u ≤ 0xDBFF then
          match s1 with
          | 92 :: 117 :: s2 =>
            match parseHex4 s2 with
            | .error e => .error e
            | .ok (u2, s3) =>
              if u2 < 0xDC00 || 0xDFFF < u2 then .error .InvalidUnicode
              else .ok (encodeUtf8 (((u - 0xD800) <<< 10 ||| (u2 - 0xDC00)) + 0x10000), s3)
          | _ => .error .InvalidUnicode
        else .ok (encodeUtf8 u, s1)
    else .error .InvalidEscapeSequence

/-- The continuation-byte loop of `parseUtf8` (`while (byteCount-- > 1)`); reading `is.ch()` at
end of input is undefined behaviour of the stream and is modelled as byte 0, which fails the
`0x80 ≤ u ≤ 0xBF` test just as the in-range check fails. -/
def contBytes : Nat → List Nat → List Nat → Except JsonErrorCode (List Nat × List Nat)
  | 0, acc, s => .ok (acc, s)
  | n + 1, acc, s =>
    match s with
    | c :: s' =>
      if 0x80 ≤ c && c ≤ 0xBF then contBytes n (acc ++ [c]) s' else .error .InvalidCharacter
    | [] => .error .InvalidCharacter

/-- `JsonParser::parseUtf8` (src/JsonParser.hpp:1757-1782): lead-byte classification plus the
continuation bytes.  Only called with a non-empty stream. -/
def parseUtf8 (input : List Nat) : Except JsonErrorCode (List Nat × List Nat) :=
  match input with
  | [] => .error .InvalidCharacter
  | c :: s =>
    if c ≤ 0x7F then .ok ([c], s)
    else if 0xC0 ≤ c && c ≤ 0xDF then contBytes 1 [c] s
    else if 0xE0 ≤ c && c ≤ 0xEF then contBytes 2 [c] s
    else if 0xF0 ≤ c && c ≤ 0xF7 then contBytes 3 [c] s
    else .error .InvalidCharacter

/-- `JsonParser::parseString` (src/JsonParser.hpp:1645-1670), entered after the opening `"` has
been consumed; fuel-indexed (each iteration consumes at least one byte, so
`input.length + 1` units suffice — `parseString` below instantiates that).  Returns the
accumulated bytes and the input after the closing quote. -/
def parseStringF : Nat → List Nat → Except JsonErrorCode (List Nat × List Nat)
  | 0, _ => .error .InvalidString
  | fuel + 1, input =>
    match input with
    | [] => .error .InvalidString
    | c :: s =>
      if c = 34 then .ok ([], s)
      else if c = 92 then
        match parseEscape s with
        | .error e => .error e
        | .ok (bytes, s') =>
          match parseStringF fuel s' with
          | .error e => .error e
          | .ok (bs, s'') => .ok (bytes ++ bs, s'')
      else if c < 0x20 then .error .InvalidCharacter
      else
        match parseUtf8 (c :: s) with
        | .error e => .error e
        | .ok (bytes, s') =>
          match parseStringF fuel s' with
          | .error e => .error e
          | .ok (bs, s'') => .ok (bytes ++ bs, s'')

def parseString (input : List Nat) : Except JsonErrorCode (List Nat × List Nat) :=
  parseStringF (input.length + 1) input

/-- `JsonParser::parseKeyWithColon` (src/JsonParser.hpp:1802-1812), entered after the opening
quote of the key. -/
def parseKeyWithColon (input : List Nat) : Except JsonErrorCode (List Nat × List Nat) :=
  match parseString input with
  | .error e => .error e
  | .ok (k, s) =>
    match skipSpace s with
    | 58 :: s' => .ok (k, s')
    | _ => .error .InvalidKeyValuePair

/-! ## Number parsing (`JsonParser::parseNumber`, src/JsonParser.hpp:1876-1979) -/

/-- Big-endian decimal digit value, as accumulated by the `UINT` loop of `parseNumber`. -/
def digitsVal (ds : List Nat) : Nat := ds.foldl (fun n d => n * 10 + (d - 48)) 0

/-- The `INT` loop of `parseNumber`: `num = num * 10 - (numStr[i] - '0')` over the digits after
the minus sign.  No intermediate value overflows int64 on the inputs the overflow guard admits,
so plain integers model the C++ arithmetic exactly. -/
def intNegVal (ds : List Nat) : Int :=
  List.foldl (fun (n : Int) (d : Nat) => n * 10 - ((d : Int) - 48)) 0 ds

/-- The first-difference scan of `parseNumber`'s overflow checks: `true` iff at the first index
where the lists differ the left digit is larger (equal lists give `false`). -/
def gtDigits : List Nat → List Nat → Bool
  | a :: as, b :: bs => if a = b then gtDigits as bs else decide (b < a)
  | _, _ => false

/-- `"9223372036854775808"` (2^63), the `maxSignedIntStr` of the source. -/
def maxSignedIntStr : List Nat := [57, 50, 50, 51, 51, 55, 50, 48, 51, 54, 56, 53, 52, 55, 55, 53, 56, 48, 56]

/-- `"18446744073709551615"` (2^64 - 1), the `maxUnsignedIntStr` of the source. -/
def maxUnsignedIntStr : List Nat :=
  [49, 56, 52, 52, 54, 55, 52, 52, 48, 55, 51, 55, 48, 57, 53, 53, 49, 54, 49, 53]

/-- The signed overflow check of `parseNumber` on the digits after the minus sign. -/
def signedOverflow (ds : List Nat) : Bool :=
  if ds.length = maxSignedIntStr.length then gtDigits ds maxSignedIntStr
  else decide (maxSignedIntStr.length < ds.length)

/-- The unsigned overflow check of `parseNumber` on the digit string. -/
def unsignedOverflow (ds : List Nat) : Bool :=
  if ds.length = maxUnsignedIntStr.length then gtDigits ds maxUnsignedIntStr
  else decide (maxUnsignedIntStr.length < ds.length)

/-- Modelled from the spec: `std::strtod` is the C library's correctly rounding IEEE-754
double-precision conversion; `std::isinf` of its result is `true` exactly when the exact decimal
magnitude `m * 10 ^ e10` reaches the rounding boundary `2^1024 - 2^970` between the largest
finite double and infinity (round to nearest, ties to even).  This is the only fact about the
floating-point conversion any claim relies on. -/
def strtodIsInf (m : Nat) (e10 : Int) : Bool :=
  if 0 ≤ e10 then decide (2 ^ 1024 - 2 ^ 970 ≤ m * 10 ^ e10.toNat)
  else decide ((2 ^ 1024 - 2 ^ 970) * 10 ^ (-e10).toNat ≤ m)

/-- Modelled from the spec: the IEEE-754 value `std::strtod` returns is abstracted by the exact
rational value of the decimal literal; no claim depends on the rounded payload, only on the
variant tag and on `strtodIsInf`. -/
def strtodVal (neg : Bool) (m : Nat) (e10 : Int) : ℚ :=
  (if neg then -(m : ℚ) else (m : ℚ)) * 10 ^ e10

/-- The integer-part lexer of `parseNumber`: a single `0`, or a nonzero digit followed by the
maximal digit run; anything else is `InvalidNumber`. -/
def lexIntPart (input : List Nat) : Except JsonErrorCode (List Nat × List Nat) :=
  match input with
  | [] => .error .InvalidNumber
  | c :: s =>
    if c = 48 then .ok ([48], s)
    else if isDigitB c then .ok ((c :: s).span isDigitB)
    else .error .InvalidNumber

/-- The fractional-part lexer: consumed only when the next character is `.`; the dot must be
followed by at least one digit.  Returns (raw consumed bytes — the characters pushed into
`numStr` — , the fraction digits, rest). -/
def lexFracPart (input : List Nat) : Except JsonErrorCode (List Nat × List Nat × List Nat) :=
  match input with
  | [] => .ok ([], [], [])
  | c :: s =>
    if c = 46 then
      match s with
      | [] => .error .InvalidNumber
      | d :: _ =>
        if isDigitB d then
          let p := s.span isDigitB
          .ok (46 :: p.1, p.1, p.2)
        else .error .InvalidNumber
    else .ok ([], [], c :: s)

/-- The digits of the exponent after the optional sign has been consumed: at least one digit,
then the maximal digit run. -/
def lexExpDigits (c : Nat) (sgnRaw : List Nat) (sgnNeg : Bool) (s1 : List Nat) :
    Except JsonErrorCode (List Nat × Bool × List Nat × List Nat) :=
  match s1 with
  | [] => .error .InvalidNumber
  | d :: _ =>
    if isDigitB d then
      let p := s1.span isDigitB
      .ok (c :: sgnRaw ++ p.1, sgnNeg, p.1, p.2)
    else .error .InvalidNumber

/-- The exponent lexer: consumed only when the next character is `e`/`E`; an optional sign, then
at least one digit.  Returns (raw consumed bytes, exponent is negative, exponent digits,
rest). -/
def lexExpPart (input : List Nat) : Except JsonErrorCode (List Nat × Bool × List Nat × List Nat) :=
  match input with
  | [] => .ok ([], false, [], [])
  | c :: s =>
    if c = 101 || c = 69 then
      if s.headD 0 = 43 then lexExpDigits c [43] false s.tail
      else if s.headD 0 = 45 then lexExpDigits c [45] true s.tail
      else lexExpDigits c [] false s
    else .ok ([], false, [], c :: s)

/-- The lexed pieces of `numStr`: the sign flag, the integer digits, the raw fraction and
exponent substrings (empty iff absent — C++ tracks this as `isFloatingPoint`), and the
decomposed fraction/exponent content. -/
structure LexedNum : Type where
  isSigned : Bool
  intDs : List Nat
  fracRaw : List Nat
  frDs : List Nat
  expRaw : List Nat
  expNeg : Bool
  expDs : List Nat
  deriving Repr

/-- The character-by-character lexing phase of `parseNumber` (src/JsonParser.hpp:1879-1924):
`numStr` is `(if isSigned then [45] else []) ++ intDs ++ fracRaw ++ expRaw`. -/
def lexNumber (input : List Nat) : Except JsonErrorCode (LexedNum × List Nat) :=
  let isSigned := input.headD 0 = 45
  let s0 := if isSigned then input.tail else input
  match lexIntPart s0 with
  | .error e => .error e
  | .ok (intDs, s1) =>
    match lexFracPart s1 with
    | .error e => .error e
    | .ok (fracRaw, frDs, s2) =>
      match lexExpPart s2 with
      | .error e => .error e
      | .ok (expRaw, expNeg, expDs, s3) =>
        .ok (⟨isSigned, intDs, fracRaw, frDs, expRaw, expNeg, expDs⟩, s3)

inductive NumType : Type where
  | DBL
  | INT
  | UINT

/-- The decimal exponent of the lexed literal's exact value `m * 10 ^ e10` (with
`m = digitsVal (intDs ++ frDs)`). -/
def lexE10 (L : LexedNum) : Int :=
  (if L.expNeg then -(digitsVal L.expDs : Int) else (digitsVal L.expDs : Int)) -
    (L.frDs.length : Int)

/-- `JsonParser::parseNumber` (src/JsonParser.hpp:1876-1979): lex, classify (presence of `.` or
exponent ⇒ `DBL`; else the digit-string overflow comparison picks `DBL` fallback or
`INT`/`UINT`), then produce the node.  The `DBL` case mirrors `std::strtod` plus the
`std::isinf` rejection. -/
def parseNumber (input : List Nat) : Except JsonErrorCode (JsonNode × List Nat) :=
  match lexNumber input with
  | .error e => .error e
  | .ok (L, rest) =>
    let isFloatingPoint := !L.fracRaw.isEmpty || !L.expRaw.isEmpty
    let numType : NumType :=
      if isFloatingPoint then .DBL
      else if L.isSigned then (if signedOverflow L.intDs then .DBL else .INT)
      else (if unsignedOverflow L.intDs then .DBL else .UINT)
    match numType with
    | .DBL =>
      let m := digitsVal (L.intDs ++ L.frDs)
      if strtodIsInf m (lexE10 L) then .error .InvalidNumber
      else .ok (.double (strtodVal L.isSigned m (lexE10 L)), rest)
    | .INT => .ok (.int (intNegVal L.intDs), rest)
    | .UINT => .ok (.uint (digitsVal L.intDs), rest)

/-! ## The parse loop (`JsonParser::parseLoop`, src/JsonParser.hpp:1468-1527)

The C++ `m_nodeStack` is a chain of pointers from the root into the tree: each entry below the
top designates the array/object whose latest child the entry above points to.  The state is
therefore a zipper: `focus` is the node the top pointer designates and each `Frame` is one stack
entry below it. -/

inductive Frame : Type where
  | arrF (before : List JsonNode)
  | objF (others : JsonObj) (key : List Nat)

/-- Writing the finished `focus` back into its parent: the array already holds the elements
before it (`emplace_back` put the focus slot at the back); the object entry at `key` holds it
(`emplace` created or found that entry). -/
def applyFrame : Frame → JsonNode → JsonNode
  | .arrF before, n => .arr (before ++ [n])
  | .objF others k, n => .obj (objInsert k n others)

/-- The tree built so far, as rooted at the bottom of the stack — what `streamParse` hands back
when a parse error is caught. -/
def plugState (n : JsonNode) : List Frame → JsonNode
  | [] => n
  | f :: fs => plugState (applyFrame f n) fs

inductive LoopResult : Type where
  | ok (root : JsonNode) (rest : List Nat)
  | err (code : JsonErrorCode) (part : JsonNode)
  deriving Repr

/-- `JsonParser::parseLoop`.  A filled slot is popped in place (`popStack()`): with an empty
stack below, the loop exits with the finished root; otherwise the parent — with the value
written back into it — becomes the top and the loop continues.  `none` means out of fuel, which
never happens from `input.length + 1`: every iteration consumes at least one input byte. -/
def parseLoop : Nat → JsonNode → List Frame → List Nat → Option LoopResult
  | 0, _, _, _ => none
  | fuel + 1, focus, ctxs, input =>
    match skipSpace input with
    | [] => some (.err .UnexpectedEndOfInput (plugState focus ctxs))
    | c :: inp =>
      if c = 110 || c = 116 || c = 102 then
        -- 'n' 't' 'f': parseLiteral
        match parseLiteral (c :: inp) with
        | .error e => some (.err e (plugState focus ctxs))
        | .ok (v, rest) =>
          match ctxs with
          | [] => some (.ok v rest)
          | f :: fs => parseLoop fuel (applyFrame f v) fs rest
      else if c = 34 then
        -- '"': *node = JsonStr_t{} happens before parseString runs
        match parseString inp with
        | .error e => some (.err e (plugState (.str []) ctxs))
        | .ok (s, rest) =>
          match ctxs with
          | [] => some (.ok (.str s) rest)
          | f :: fs => parseLoop fuel (applyFrame f (.str s)) fs rest
      else if c = 91 then
        -- '[': beginArray (src/JsonParser.hpp:1814-1830)
        match skipSpace inp with
        | [] => some (.err .UnexpectedEndOfInput (plugState (.arr []) ctxs))
        | d :: inp2 =>
          if d = 93 then
            match ctxs with
            | [] => some (.ok (.arr []) inp2)
            | f :: fs => parseLoop fuel (applyFrame f (.arr [])) fs inp2
          else parseLoop fuel .null (.arrF [] :: ctxs) (d :: inp2)
      else if c = 93 then
        -- ']': the top node must be an array
        match focus with
        | .arr a =>
          match ctxs with
          | [] => some (.ok (.arr a) inp)
          | f :: fs => parseLoop fuel (applyFrame f (.arr a)) fs inp
        | _ => some (.err .InvalidJson (plugState focus ctxs))
      else if c = 123 then
        -- '{': beginObject (src/JsonParser.hpp:1832-1854); emplace into the fresh empty map
        -- always inserts (key, null), so the new slot is null under an objF frame
        match skipSpace inp with
        | [] => some (.err .UnexpectedEndOfInput (plugState (.obj []) ctxs))
        | d :: inp2 =>
          if d = 125 then
            match ctxs with
            | [] => some (.ok (.obj []) inp2)
            | f :: fs => parseLoop fuel (applyFrame f (.obj [])) fs inp2
          else if d = 34 then
            match parseKeyWithColon inp2 with
            | .error e => some (.err e (plugState (.obj []) ctxs))
            | .ok (k, rest) => parseLoop fuel .null (.objF [] k :: ctxs) rest
          else some (.err .InvalidKeyValuePair (plugState (.obj []) ctxs))
      else if c = 125 then
        -- '}': the top node must be an object
        match focus with
        | .obj o =>
          match ctxs with
          | [] => some (.ok (.obj o) inp)
          | f :: fs => parseLoop fuel (applyFrame f (.obj o)) fs inp
        | _ => some (.err .InvalidJson (plugState focus ctxs))
      else if c = 44 then
        -- ',': handleComma (src/JsonParser.hpp:1856-1874).  For objects, emplace on an
        -- existing key hands back the existing entry: the new slot is that entry's value and
        -- the frame keeps the map without it.
        match focus with
        | .arr a => parseLoop fuel .null (.arrF a :: ctxs) inp
        | .obj o =>
          match skipSpace inp with
          | [] => some (.err .UnexpectedEndOfInput (plugState (.obj o) ctxs))
          | d :: inp2 =>
            if d = 34 then
              match parseKeyWithColon inp2 with
              | .error e => some (.err e (plugState (.obj o) ctxs))
              | .ok (k, rest) =>
                parseLoop fuel ((objFind k o).getD .null) (.objF (objErase k o) k :: ctxs) rest
            else some (.err .UnexpectedEndOfInput (plugState (.obj o) ctxs))
        | _ => some (.err .InvalidArrayOrObject (plugState focus ctxs))
      else if isDigitB c || c = 45 then
        match parseNumber (c :: inp) with
        | .error e => some (.err e (plugState focus ctxs))
        | .ok (v, rest) =>
          match ctxs with
          | [] => some (.ok v rest)
          | f :: fs => parseLoop fuel (applyFrame f v) fs rest
      else some (.err .InvalidJson (plugState focus ctxs))

/-- `JsonParser::parse` over an input stream (src/JsonParser.hpp:1529-1545): run the loop from a
single root slot, skip trailing whitespace, and (when `checkEnd`) fail with `InvalidJson` on any
trailing non-whitespace.  Returns the root and the not-consumed input. -/
def parseCore (input : List Nat) (checkEnd : Bool) :
    Except JsonErrorCode (JsonNode × List Nat) :=
  match parseLoop (input.length + 1) .null [] input with
  | none => .error .InvalidJson
  | some (.err c _) => .error c
  | some (.ok root rest) =>
    let rest' := skipSpace rest
    if checkEnd && !rest'.isEmpty then .error .InvalidJson
    else .ok (root, rest')

/-- `JsonParser::streamParse` over an input stream (src/JsonParser.hpp:1547-1565): any error the
loop raises is caught and reported by `isComplete = false`, with the tree built so far
returned. -/
def streamParse (input : List Nat) : JsonNode × Bool :=
  match parseLoop (input.length + 1) .null [] input with
  | none => (.null, false)
  | some (.err _ part) => (part, false)
  | some (.ok root _) => (root, true)

/-- `JsonParser::parse(std::string_view, size_t *offset)` (src/JsonParser.hpp:1567-1574): when
an offset is supplied, start there and check-end is off; the returned offset is the stream
position after the parsed value and any following whitespace. -/
def parseSV (input : List Nat) (offset : Option Nat) :
    Except JsonErrorCode (JsonNode × Nat) :=
  match parseCore (input.drop (offset.getD 0)) offset.isNone with
  | .error e => .error e
  | .ok (root, rest) => .ok (root, input.length - rest.length)

/-- Byte list of an ASCII string literal, for readable statements. -/
def bytes (s : String) : List Nat := s.toList.map Char.toNat

/-! ## The serializer (`JsonNode::Serializer`, src/JsonParser.hpp:1011-1279), default settings:
`precision = -1`, `indent = -1` (compact) and `ascii = true`. -/

/-- The digit loop of `Serializer::dumpUint64` (src/JsonParser.hpp:1171-1181): emit `u % 10`
into the front of the accumulator while `u > 9`, then the final digit.  The fuel mirrors the
20-byte buffer; 19 steps cover every `uint64_t`. -/
def dumpUint64Core : Nat → Nat → List Nat → List Nat
  | 0, u, acc => (48 + u) :: acc
  | fuel + 1, u, acc =>
    if 9 < u then dumpUint64Core fuel (u / 10) ((48 + u % 10) :: acc) else (48 + u) :: acc

def dumpUint64 (u : Nat) : List Nat := dumpUint64Core 19 u []

/-- `Serializer::dumpInt64` (src/JsonParser.hpp:1161-1169); the negation of `INT64_MIN` wraps to
`2^63` in the `uint64_t` argument, hence the reduction modulo `2^64`. -/
def dumpInt64 (i : Int) : List Nat :=
  if i < 0 then 45 :: dumpUint64 ((-i).toNat % 2 ^ 64) else dumpUint64 i.toNat

/-- Modelled from the spec: the serializer's double branch formats through
`std::format`/`snprintf`, a floating-point facility outside this embedding; every claim below
excludes double-valued nodes, so the branch is modelled as the single byte `0`. -/
def dumpDouble (_ : ℚ) : List Nat := [48]

def hexNibble (n : Nat) : Nat := if n < 10 then n + 48 else n - 10 + 97

/-- `Serializer::toHex4` (src/JsonParser.hpp:1262-1272): `\u` plus the four lowercase-hex
nibbles of the low 16 bits. -/
def toHex4 (u : Nat) : List Nat :=
  [92, 117, hexNibble (u >>> 12 &&& 0xF), hexNibble (u >>> 8 &&& 0xF),
   hexNibble (u >>> 4 &&& 0xF), hexNibble (u &&& 0xF)]

/-- The escape bytes `Serializer::decodeUtf8` (src/JsonParser.hpp:1234-1260) emits for the code
point `u` it decoded: for `u ≥ 0x10000` the surrogate pair is emitted *and then the trailing
`toHex4(u)` still runs* (there is no early return in the source), so three escapes appear. -/
def utf8EscBytes (u : Nat) : List Nat :=
  (if 0x10000 ≤ u then
    (if (u - 0x10000) >>> 10 + 0xD800 ≤ 0xDBFF then
      toHex4 ((u - 0x10000) >>> 10 + 0xD800) ++ toHex4 (0xDC00 + (u &&& 0x3FF))
    else [])
  else []) ++ toHex4 u

/-- `Serializer::dumpJsonString` with `ascii = true` (src/JsonParser.hpp:1199-1232): short
escapes for quote, backslash and the five control characters; bytes ≥ 0x80 go through
`decodeUtf8`, which consumes the continuation bytes *without validation*; reads past the end of
the string (undefined behaviour in the source) are modelled as byte 0. -/
def dumpStep (c : Nat) (rest : List Nat) : List Nat × List Nat :=
  if c = 34 || c = 92 then ([92, c], rest)
  else if c = 8 then ([92, 98], rest)
  else if c = 12 then ([92, 102], rest)
  else if c = 10 then ([92, 110], rest)
  else if c = 13 then ([92, 114], rest)
  else if c = 9 then ([92, 116], rest)
  else if 0x80 ≤ c then
    if c &&& 0x20 = 0 then
      match rest with
      | c1 :: rest1 => (utf8EscBytes ((c &&& 0x1F) <<< 6 ||| (c1 &&& 0x3F)), rest1)
      | [] => (utf8EscBytes ((c &&& 0x1F) <<< 6), [])
    else if c &&& 0x10 = 0 then
      match rest with
      | c1 :: c2 :: rest2 =>
        (utf8EscBytes ((c &&& 0xF) <<< 12 ||| (c1 &&& 0x3F) <<< 6 ||| (c2 &&& 0x3F)), rest2)
      | [c1] => (utf8EscBytes ((c &&& 0xF) <<< 12 ||| (c1 &&& 0x3F) <<< 6), [])
      | [] => (utf8EscBytes ((c &&& 0xF) <<< 12), [])
    else
      match rest with
      | c1 :: c2 :: c3 :: rest3 =>
        (utf8EscBytes
          ((c &&& 0x7) <<< 18 ||| (c1 &&& 0x3F) <<< 12 ||| (c2 &&& 0x3F) <<< 6 ||| (c3 &&& 0x3F)),
          rest3)
      | [c1, c2] => (utf8EscBytes ((c &&& 0x7) <<< 18 ||| (c1 &&& 0x3F) <<< 12 ||| (c2 &&& 0x3F) <<< 6), [])
      | [c1] => (utf8EscBytes ((c &&& 0x7) <<< 18 ||| (c1 &&& 0x3F) <<< 12), [])
      | [] => (utf8EscBytes ((c &&& 0x7) <<< 18), [])
  else ([c], rest)

/-- The loop of `dumpJsonString` advances its byte index by at least one per iteration, so the
string's length bounds the iteration count; the fuel mirrors that. -/
def dumpJsonStringF : Nat → List Nat → List Nat
  | 0, _ => []
  | fuel + 1, input =>
    match input with
    | [] => []
    | c :: rest =>
      match dumpStep c rest with
      | (out, rest2) => out ++ dumpJsonStringF fuel rest2

def dumpJsonString (s : List Nat) : List Nat := dumpJsonStringF s.length s

mutual

/-- `Serializer::dump` (src/JsonParser.hpp:1035-1151) under the default settings, as the text
its explicit-stack walk emits for a node. -/
def serNode : JsonNode → List Nat
  | .null => [110, 117, 108, 108]
  | .bool true => [116, 114, 117, 101]
  | .bool false => [102, 97, 108, 115, 101]
  | .double d => dumpDouble d
  | .int i => dumpInt64 i
  | .uint u => dumpUint64 u
  | .str s => 34 :: dumpJsonString s ++ [34]
  | .arr a => 91 :: serArrElems a ++ [93]
  | .obj o => 123 :: serObjElems o ++ [125]

/-- Array elements, comma separated (compact mode emits no whitespace). -/
def serArrElems : List JsonNode → List Nat
  | [] => []
  | [x] => serNode x
  | x :: y :: xs => serNode x ++ 44 :: serArrElems (y :: xs)

/-- Object entries: `"key":value`, comma separated. -/
def serObjElems : JsonObj → List Nat
  | [] => []
  | [(k, v)] => 34 :: dumpJsonString k ++ 34 :: 58 :: serNode v
  | (k, v) :: e :: es => (34 :: dumpJsonString k ++ 34 :: 58 :: serNode v) ++ 44 :: serObjElems (e :: es)

end

/-! ## Node accessors (`JsonNode::str/arr/obj/operator[]/at`, src/JsonParser.hpp:628-737)

`requireType` throws `InvalidJsonAccess` on a tag mismatch (debug mode, the default build);
`std::vector::at` / `std::map::at` throw `std::out_of_range` on a missing index/key, modelled
as `rangeError`. -/

inductive AccessResult (α : Type) : Type where
  | ok (a : α)
  | typeError
  | rangeError
  deriving Repr

def isStrB : JsonNode → Bool
  | .str _ => true
  | _ => false

def isArrB : JsonNode → Bool
  | .arr _ => true
  | _ => false

def isObjB : JsonNode → Bool
  | .obj _ => true
  | _ => false

/-- Mutable `str()` (src/JsonParser.hpp:638-643): a non-string node is overwritten with an empty
string.  Returns the node after the call and the buffer handed back. -/
def strMutAcc : JsonNode → JsonNode × List Nat
  | .str s => (.str s, s)
  | _ => (.str [], [])

/-- Mutable `arr()` (src/JsonParser.hpp:653-658). -/
def arrMutAcc : JsonNode → JsonNode × List JsonNode
  | .arr a => (.arr a, a)
  | _ => (.arr [], [])

/-- Mutable `obj()` (src/JsonParser.hpp:664-669). -/
def objMutAcc : JsonNode → JsonNode × JsonObj
  | .obj o => (.obj o, o)
  | _ => (.obj [], [])

/-- Const `str()` (src/JsonParser.hpp:644-647): `requireType(StrType_)`. -/
def strConstAcc : JsonNode → AccessResult (List Nat)
  | .str s => .ok s
  | _ => .typeError

/-- Const `arr()` (src/JsonParser.hpp:659-662). -/
def arrConstAcc : JsonNode → AccessResult (List JsonNode)
  | .arr a => .ok a
  | _ => .typeError

/-- Const `obj()` (src/JsonParser.hpp:670-673). -/
def objConstAcc : JsonNode → AccessResult JsonObj
  | .obj o => .ok o
  | _ => .typeError

/-- Mutable `operator[](size_t)` (src/JsonParser.hpp:688-691): `requireType(ArrType_)` then the
unchecked element access (reading out of range is undefined behaviour of `std::vector`, modelled
by a null default; no claim depends on it). -/
def idxMutAcc : JsonNode → Nat → AccessResult JsonNode
  | .arr a, i => .ok (a.getD i .null)
  | _, _ => .typeError

/-- Const `operator[](size_t)` (src/JsonParser.hpp:696-699), same checks as the mutable one. -/
def idxConstAcc : JsonNode → Nat → AccessResult JsonNode
  | .arr a, i => .ok (a.getD i .null)
  | _, _ => .typeError

/-- `at(size_t)` (src/JsonParser.hpp:692-695 and 700-703): `requireType(ArrType_)` then
`std::vector::at`, which range-checks. -/
def atIdxAcc : JsonNode → Nat → AccessResult JsonNode
  | .arr a, i => match a.get? i with
    | some v => .ok v
    | none => .rangeError
  | _, _ => .typeError

/-- Mutable `operator[](const std::string &)` (src/JsonParser.hpp:705-710): a non-object is
overwritten with an empty object, then `std::map::operator[]` inserts a default (null) node at
a missing key.  Returns the node after the call and the entry handed back. -/
def keyMutAcc : JsonNode → List Nat → JsonNode × JsonNode
  | .obj o, k =>
    match objFind k o with
    | some v => (.obj o, v)
    | none => (.obj (objInsert k .null o), .null)
  | _, k => (.obj [(k, .null)], .null)

/-- Const `operator[](const std::string &)` and `at(const std::string &)`
(src/JsonParser.hpp:711-722): `requireType(ObjType_)` then `std::map::at`. -/
def atKeyAcc : JsonNode → List Nat → AccessResult JsonNode
  | .obj o, k =>
    match objFind k o with
    | some v => .ok v
    | none => .rangeError
  | _, _ => .typeError

/-! ## Well-formedness of parsed trees -/

/-- Keys strictly increasing in `std::map` order. -/
def objSortedB : JsonObj → Bool
  | [] => true
  | [_] => true
  | (k1, _) :: (k2, v2) :: o => keyLt k1 k2 && objSortedB ((k2, v2) :: o)

/-- Every object in the tree is strictly key-sorted (hence has unique keys), as
`std::map<std::string, JsonNode>` guarantees. -/
inductive WFNode : JsonNode → Prop where
  | null : WFNode .null
  | bool (b : Bool) : WFNode (.bool b)
  | double (d : ℚ) : WFNode (.double d)
  | int (i : Int) : WFNode (.int i)
  | uint (u : Nat) : WFNode (.uint u)
  | str (s : List Nat) : WFNode (.str s)
  | arr (a : List JsonNode) : (∀ x ∈ a, WFNode x) → WFNode (.arr a)
  | obj (o : JsonObj) : objSortedB o = true → (∀ p ∈ o, WFNode p.2) → WFNode (.obj o)

/-- Well-formedness of one parse-stack frame. -/
def WFFrame : Frame → Prop
  | .arrF before => ∀ x ∈ before, WFNode x
  | .objF others _ => objSortedB others = true ∧ ∀ p ∈ others, WFNode p.2

/-! ## The number grammar of the spec (σ 4.2: `-?(0|[1-9][0-9]*)(\.[0-9]+)?([eE][+-]?[0-9]+)?`)

These definitions follow the spec's words, to be compared with `lexNumber`. -/

/-- `0|[1-9][0-9]*`. -/
def IntPart (l : List Nat) : Prop :=
  l = [48] ∨ ∃ c ds, l = c :: ds ∧ 49 ≤ c ∧ c ≤ 57 ∧ ds.all isDigitB = true

/-- `\\.[0-9]+`. -/
def FracPart (l : List Nat) : Prop :=
  ∃ ds, l = 46 :: ds ∧ ds ≠ [] ∧ ds.all isDigitB = true

/-- `[eE][+-]?[0-9]+`. -/
def ExpPart (l : List Nat) : Prop :=
  ∃ e sgn ds, l = e :: (sgn ++ ds) ∧ (e = 101 ∨ e = 69) ∧
    (sgn = [] ∨ sgn = [43] ∨ sgn = [45]) ∧ ds ≠ [] ∧ ds.all isDigitB = true

/-- Membership in the number-token grammar of the spec: an optional minus, an integer part, an
optional fraction, an optional exponent. -/
def NumToken (tok : List Nat) : Prop :=
  ∃ sgn ip fp ep, tok = sgn ++ ip ++ fp ++ ep ∧ (sgn = [] ∨ sgn = [45]) ∧
    IntPart ip ∧ (fp = [] ∨ FracPart fp) ∧ (ep = [] ∨ ExpPart ep)

/-! ## The round-trip domain and structural equality up to numeric representation -/

/-- The byte strings the serializer-parser round trip preserves: printable ASCII (with quote and
backslash escaped and re-read), the five short-escaped control characters, and the UTF-8
encodings of code points `0x80 .. 0xFFFF` outside the surrogate range (two- and three-byte
sequences, no overlong forms).  Code points ≥ 0x10000 are excluded: `Serializer::decodeUtf8`
emits a third stray escape after the surrogate pair for them (see `utf8EscBytes`), which breaks
the round trip — `claim_C1_counterexample` below exhibits this. -/
inductive GoodStr : List Nat → Prop where
  | nil : GoodStr []
  | ascii (c : Nat) (rest : List Nat) : 0x20 ≤ c → c ≤ 0x7F → GoodStr rest →
      GoodStr (c :: rest)
  | ctrl (c : Nat) (rest : List Nat) : c = 8 ∨ c = 9 ∨ c = 10 ∨ c = 12 ∨ c = 13 →
      GoodStr rest → GoodStr (c :: rest)
  | two (u : Nat) (rest : List Nat) : 0x80 ≤ u → u ≤ 0x7FF → GoodStr rest →
      GoodStr (encodeUtf8 u ++ rest)
  | three (u : Nat) (rest : List Nat) : 0x800 ≤ u → u ≤ 0xFFFF →
      ¬(0xD800 ≤ u ∧ u ≤ 0xDFFF) → GoodStr rest → GoodStr (encodeUtf8 u ++ rest)

/-- Trees on which the (amended) round trip is stated: no doubles, 64-bit-range integers,
`GoodStr` strings and keys, key-sorted objects. -/
inductive GoodNode : JsonNode → Prop where
  | null : GoodNode .null
  | bool (b : Bool) : GoodNode (.bool b)
  | int (i : Int) : -(2 ^ 63) ≤ i → i < 2 ^ 63 → GoodNode (.int i)
  | uint (u : Nat) : u < 2 ^ 64 → GoodNode (.uint u)
  | str (s : List Nat) : GoodStr s → GoodNode (.str s)
  | arr (a : List JsonNode) : (∀ x ∈ a, GoodNode x) → GoodNode (.arr a)
  | obj (o : JsonObj) : objSortedB o = true → (∀ p ∈ o, GoodStr p.1) →
      (∀ p ∈ o, GoodNode p.2) → GoodNode (.obj o)

mutual

/-- What the parser reads a serialized tree back as: a non-negative `int` comes back as the
`uint` of the same value (the serializer prints only digits, and the lexer's unsigned path
claims them); everything else keeps its representation. -/
def canonN : JsonNode → JsonNode
  | .null => .null
  | .bool b => .bool b
  | .double d => .double d
  | .int i => if 0 ≤ i then .uint i.toNat else .int i
  | .uint u => .uint u
  | .str s => .str s
  | .arr a => .arr (canonList a)
  | .obj o => .obj (canonObj o)

def canonList : List JsonNode → List JsonNode
  | [] => []
  | x :: xs => canonN x :: canonList xs

def canonObj : JsonObj → JsonObj
  | [] => []
  | (k, v) :: o => (k, canonN v) :: canonObj o

end

mutual

/-- Structural equality of trees, with the three numeric representations compared by value (the
spec: they are "indistinguishable via the public `Num` query").  Object entry lists are compared
pointwise with equal keys — both sides being key-sorted, this is equality ignoring insertion
order. -/
inductive JEquiv : JsonNode → JsonNode → Prop where
  | null : JEquiv .null .null
  | bool (b : Bool) : JEquiv (.bool b) (.bool b)
  | double (d : ℚ) : JEquiv (.double d) (.double d)
  | int (i : Int) : JEquiv (.int i) (.int i)
  | uint (u : Nat) : JEquiv (.uint u) (.uint u)
  | intUint (i : Int) (u : Nat) : i = (u : Int) → JEquiv (.int i) (.uint u)
  | uintInt (u : Nat) (i : Int) : (u : Int) = i → JEquiv (.uint u) (.int i)
  | str (s : List Nat) : JEquiv (.str s) (.str s)
  | arr (a b : List JsonNode) : JEquivList a b → JEquiv (.arr a) (.arr b)
  | obj (o p : JsonObj) : JEquivObj o p → JEquiv (.obj o) (.obj p)

/-- Pointwise `JEquiv` on element lists. -/
inductive JEquivList : List JsonNode → List JsonNode → Prop where
  | nil : JEquivList [] []
  | cons (x y : JsonNode) (xs ys : List JsonNode) : JEquiv x y → JEquivList xs ys →
      JEquivList (x :: xs) (y :: ys)

/-- Pointwise `JEquiv` on entry lists, keys equal. -/
inductive JEquivObj : JsonObj → JsonObj → Prop where
  | nil : JEquivObj [] []
  | cons (k : List Nat) (v w : JsonNode) (o p : JsonObj) : JEquiv v w → JEquivObj o p →
      JEquivObj ((k, v) :: o) ((k, w) :: p)

end

/-! ## Side conditions for the surrogate-pair claims -/

/-- Does the remaining input begin with a low-surrogate escape `\uXXXX`
(`0xDC00 ≤ XXXX ≤ 0xDFFF`)?  This is the continuation `parseEscape` demands after a high
surrogate. -/
def isLowSurrEsc (rest : List Nat) : Bool :=
  match rest with
  | 92 :: 117 :: c1 :: c2 :: c3 :: c4 :: _ =>
    match hexDigitVal c1, hexDigitVal c2, hexDigitVal c3, hexDigitVal c4 with
    | some v1, some v2, some v3, some v4 =>
      let u2 := ((v1 <<< 4 ||| v2) <<< 4 ||| v3) <<< 4 ||| v4
      0xDC00 ≤ u2 && u2 ≤ 0xDFFF
    | _, _, _, _ => false
  | _ => false

/-- Does the remaining input consist of `\u` followed by fewer than four bytes, all hexadecimal
digits, and then end?  In that case `parseHex4` runs out of input mid-escape and reports
`InvalidString` rather than `InvalidUnicode`. -/
def isTruncHex (rest : List Nat) : Bool :=
  match rest with
  | 92 :: 117 :: hs => decide (hs.length < 4) && hs.all (fun c => (hexDigitVal c).isSome)
  | _ => false

/-- The shared fill-site continuation of `parseLoop` (`popStack()` in the source): a finished
value either ends the loop (empty stack) or is written back into its parent and the loop
resumes there. -/
def popCont (v : JsonNode) (ctxs : List Frame) (rest : List Nat) (fuel : Nat) :
    Option LoopResult :=
  match ctxs with
  | [] => some (.ok v rest)
  | f :: fs => parseLoop fuel (applyFrame f v) fs rest

/-- The serialized text after an array's first element: nothing, or a comma and the remaining
elements. -/
def serArrTail : List JsonNode → List Nat
  | [] => []
  | y :: ys => 44 :: serArrElems (y :: ys)

/-- The serialized text after an object's first entry: nothing, or a comma and the remaining
entries. -/
def serObjTail : JsonObj → List Nat
  | [] => []
  | e :: es => 44 :: serObjElems (e :: es)

/-- The entry ordering of a key-sorted object: strictly increasing keys. -/
def keyRel (p q : List Nat × JsonNode) : Prop := keyLt p.1 q.1 = true

/-- The input bytes that can follow a serialized value inside a larger serialized tree: nothing,
or a separator (`,`, `]`, `}`) first.  None of these can extend a number literal, a keyword or a
string. -/
def SepRest (rest : List Nat) : Prop :=
  ∀ b t, rest = b :: t → b = 44 ∨ b = 93 ∨ b = 125

/-! ## Lemma development and claim theorems -/

/-! Span/takeWhile facts -/

theorem takeWhile_append_eq {p : Nat → Bool} {A B : List Nat} (hA : ∀ a ∈ A, p a = true)
    (hB : ∀ b t, B = b :: t → p b = false) : (A ++ B).takeWhile p = A := by
  induction A with
  | nil =>
    cases B with
    | nil => rfl
    | cons b t => simp [List.takeWhile_cons, hB b t rfl]
  | cons a A ih =>
    rw [List.cons_append]
    simp only [List.takeWhile_cons, hA a (List.mem_cons_self _ _), if_true]
    rw [ih (fun x hx => hA x (List.mem_cons_of_mem _ hx))]

theorem dropWhile_append_eq {p : Nat → Bool} {A B : List Nat} (hA : ∀ a ∈ A, p a = true)
    (hB : ∀ b t, B = b :: t → p b = false) : (A ++ B).dropWhile p = B := by
  induction A with
  | nil =>
    cases B with
    | nil => rfl
    | cons b t => simp [List.dropWhile_cons, hB b t rfl]
  | cons a A ih =>
    rw [List.cons_append]
    simp only [List.dropWhile_cons, hA a (List.mem_cons_self _ _), if_true]
    exact ih (fun x hx => hA x (List.mem_cons_of_mem _ hx))

theorem span_append_eq {p : Nat → Bool} {A B : List Nat} (hA : ∀ a ∈ A, p a = true)
    (hB : ∀ b t, B = b :: t → p b = false) : (A ++ B).span p = (A, B) := by
  rw [List.span_eq_take_drop, takeWhile_append_eq hA hB, dropWhile_append_eq hA hB]

theorem mem_takeWhile_sat {p : Nat → Bool} {l : List Nat} {x : Nat}
    (h : x ∈ l.takeWhile p) : p x = true := by
  induction l with
  | nil => simp [List.takeWhile] at h
  | cons a l ih =>
    rw [List.takeWhile_cons] at h
    cases hp : p a with
    | false => rw [hp] at h; simp at h
    | true =>
      rw [hp] at h
      simp only [if_true] at h
      rcases List.mem_cons.mp h with h' | h'
      · rw [h']; exact hp
      · exact ih h'

theorem all_takeWhile (p : Nat → Bool) (l : List Nat) : (l.takeWhile p).all p = true := by
  rw [List.all_eq_true]
  exact fun x hx => mem_takeWhile_sat hx

/-! Per-part lexer lemmas -/

theorem lexIntPart_err {s : List Nat} {e : JsonErrorCode} (h : lexIntPart s = .error e) :
    e = .InvalidNumber := by
  unfold lexIntPart at h
  split at h
  · simp_all
  · split_ifs at h <;> simp_all

theorem lexFracPart_err {s : List Nat} {e : JsonErrorCode} (h : lexFracPart s = .error e) :
    e = .InvalidNumber := by
  unfold lexFracPart at h
  split at h
  · simp at h
  · split_ifs at h with h1
    all_goals try split at h
    all_goals try split_ifs at h
    all_goals simp_all

theorem lexExpDigits_err {c : Nat} {sgnRaw : List Nat} {sgnNeg : Bool} {s1 : List Nat}
    {e : JsonErrorCode} (h : lexExpDigits c sgnRaw sgnNeg s1 = .error e) :
    e = .InvalidNumber := by
  unfold lexExpDigits at h
  split at h
  · simp_all
  · split_ifs at h <;> simp_all

theorem lexExpPart_err {s : List Nat} {e : JsonErrorCode} (h : lexExpPart s = .error e) :
    e = .InvalidNumber := by
  unfold lexExpPart at h
  split at h
  · simp at h
  · split_ifs at h with h1 h2 h3
    all_goals first
      | exact lexExpDigits_err h
      | simp at h

theorem lexIntPart_ok {s ds r : List Nat} (h : lexIntPart s = .ok (ds, r)) :
    s = ds ++ r ∧ IntPart ds := by
  unfold lexIntPart at h
  split at h
  · simp at h
  · rename_i c s'
    split_ifs at h with h1 h2
    · simp only [Except.ok.injEq, Prod.mk.injEq] at h
      rw [← h.1, ← h.2, h1]
      exact ⟨rfl, Or.inl rfl⟩
    · rw [List.span_eq_take_drop] at h
      simp only [Except.ok.injEq, Prod.mk.injEq] at h
      rw [← h.1, ← h.2]
      have hd : isDigitB c = true := h2
      have hc : 49 ≤ c ∧ c ≤ 57 := by
        simp only [isDigitB, Bool.and_eq_true, decide_eq_true_eq] at hd
        have : ¬c = 48 := h1
        omega
      refine ⟨(List.takeWhile_append_dropWhile _ _).symm, ?_⟩
      refine Or.inr ⟨c, s'.takeWhile isDigitB, ?_, hc.1, hc.2, all_takeWhile _ _⟩
      simp [List.takeWhile_cons, hd]

theorem lexFracPart_ok {s raw ds r : List Nat} (h : lexFracPart s = .ok (raw, ds, r)) :
    s = raw ++ r ∧ ((raw = [] ∧ ds = [] ∧ r = s) ∨ (FracPart raw ∧ raw = 46 :: ds)) := by
  unfold lexFracPart at h
  split at h
  · simp only [Except.ok.injEq, Prod.mk.injEq] at h
    rw [← h.1, ← h.2.1, ← h.2.2]
    simp
  · rename_i c s'
    split_ifs at h with h1
    · split at h
      · simp at h
      · rename_i d t
        split_ifs at h with h2
        rw [List.span_eq_take_drop] at h
        simp only [Except.ok.injEq, Prod.mk.injEq] at h
        rw [← h.1, ← h.2.1, ← h.2.2, h1]
        constructor
        · rw [List.cons_append, List.takeWhile_append_dropWhile]
        · refine Or.inr ⟨⟨(d :: t).takeWhile isDigitB, rfl, ?_, all_takeWhile _ _⟩, rfl⟩
          simp [List.takeWhile_cons, h2]
    · simp only [Except.ok.injEq, Prod.mk.injEq] at h
      rw [← h.1, ← h.2.1, ← h.2.2]
      simp

theorem lexExpDigits_ok {c : Nat} {sgnRaw : List Nat} {sgnNeg : Bool} {s1 : List Nat}
    {raw : List Nat} {neg : Bool} {ds r : List Nat}
    (h : lexExpDigits c sgnRaw sgnNeg s1 = .ok (raw, neg, ds, r)) :
    s1 = ds ++ r ∧ raw = c :: sgnRaw ++ ds ∧ ds ≠ [] ∧ ds.all isDigitB = true := by
  unfold lexExpDigits at h
  split at h
  · simp at h
  · rename_i d t
    split_ifs at h with h2
    rw [List.span_eq_take_drop] at h
    simp only [Except.ok.injEq, Prod.mk.injEq] at h
    obtain ⟨hraw, _, hds', hr⟩ := h
    subst hds' hr
    refine ⟨(List.takeWhile_append_dropWhile _ _).symm, hraw.symm, ?_, all_takeWhile _ _⟩
    simp [List.takeWhile_cons, h2]

theorem lexExpPart_ok {s raw r : List Nat} {neg : Bool} {ds : List Nat}
    (h : lexExpPart s = .ok (raw, neg, ds, r)) :
    s = raw ++ r ∧ ((raw = [] ∧ r = s) ∨ ExpPart raw) := by
  unfold lexExpPart at h
  split at h
  · simp only [Except.ok.injEq, Prod.mk.injEq] at h
    rw [← h.1, ← h.2.2.2]
    simp
  · rename_i c s'
    split_ifs at h with h1 h2 h3
    · obtain ⟨hs1, hraw, hne, hall⟩ := lexExpDigits_ok h
      have he : c = 101 ∨ c = 69 := by
        rcases Bool.or_eq_true _ _ |>.mp h1 with hx | hx
        · exact Or.inl (by simpa using hx)
        · exact Or.inr (by simpa using hx)
      cases s' with
      | nil => simp at h2
      | cons x xs =>
        simp only [List.headD_cons] at h2
        subst h2
        rw [List.tail_cons] at hs1
        refine ⟨?_, Or.inr ⟨c, [43], ds, by rw [hraw]; rfl, he, by simp, hne, hall⟩⟩
        rw [hraw, hs1]
        simp
    · obtain ⟨hs1, hraw, hne, hall⟩ := lexExpDigits_ok h
      have he : c = 101 ∨ c = 69 := by
        rcases Bool.or_eq_true _ _ |>.mp h1 with hx | hx
        · exact Or.inl (by simpa using hx)
        · exact Or.inr (by simpa using hx)
      cases s' with
      | nil => simp at h3
      | cons x xs =>
        simp only [List.headD_cons] at h3
        subst h3
        rw [List.tail_cons] at hs1
        refine ⟨?_, Or.inr ⟨c, [45], ds, by rw [hraw]; rfl, he, by simp, hne, hall⟩⟩
        rw [hraw, hs1]
        simp
    · obtain ⟨hs1, hraw, hne, hall⟩ := lexExpDigits_ok h
      have he : c = 101 ∨ c = 69 := by
        rcases Bool.or_eq_true _ _ |>.mp h1 with hx | hx
        · exact Or.inl (by simpa using hx)
        · exact Or.inr (by simpa using hx)
      refine ⟨?_, Or.inr ⟨c, [], ds, by rw [hraw]; simp, he, by simp, hne, hall⟩⟩
      rw [hraw, hs1]
      simp
    · simp only [Except.ok.injEq, Prod.mk.injEq] at h
      rw [← h.1, ← h.2.2.2]
      simp

/-! lexNumber-level lemmas -/

theorem lexNumber_err {input : List Nat} {e : JsonErrorCode}
    (h : lexNumber input = .error e) : e = .InvalidNumber := by
  unfold lexNumber at h
  dsimp only at h
  cases hip : lexIntPart (if input.headD 0 = 45 then input.tail else input) with
  | error e' =>
    rw [hip] at h
    simp only [Except.error.injEq] at h
    rw [← h]
    exact lexIntPart_err hip
  | ok pr =>
    obtain ⟨ds, s1⟩ := pr
    rw [hip] at h
    dsimp only at h
    cases hfp : lexFracPart s1 with
    | error e' =>
      rw [hfp] at h
      simp only [Except.error.injEq] at h
      rw [← h]
      exact lexFracPart_err hfp
    | ok pr =>
      obtain ⟨fraw, fds, s2⟩ := pr
      rw [hfp] at h
      dsimp only at h
      cases hep : lexExpPart s2 with
      | error e' =>
        rw [hep] at h
        simp only [Except.error.injEq] at h
        rw [← h]
        exact lexExpPart_err hep
      | ok pr =>
        obtain ⟨eraw, eneg, eds, s3⟩ := pr
        rw [hep] at h
        simp at h

theorem parseNumber_err {input : List Nat} {e : JsonErrorCode}
    (h : parseNumber input = .error e) : e = .InvalidNumber := by
  unfold parseNumber at h
  cases hlex : lexNumber input with
  | error e' =>
    rw [hlex] at h
    simp only [Except.error.injEq] at h
    rw [← h]
    exact lexNumber_err hlex
  | ok pr =>
    obtain ⟨L, rest⟩ := pr
    rw [hlex] at h
    dsimp only at h
    split at h
    all_goals try dsimp only at h
    all_goals try split at h
    all_goals first
      | (simp only [Except.error.injEq] at h; exact h.symm)
      | simp at h

theorem lexNumber_sound {input : List Nat} {L : LexedNum} {rest : List Nat}
    (h : lexNumber input = .ok (L, rest)) : ∃ tok, input = tok ++ rest ∧ NumToken tok := by
  unfold lexNumber at h
  dsimp only at h
  cases hip : lexIntPart (if input.headD 0 = 45 then input.tail else input) with
  | error e' =>
    rw [hip] at h
    simp at h
  | ok pr =>
    obtain ⟨ds, s1⟩ := pr
    rw [hip] at h
    dsimp only at h
    cases hfp : lexFracPart s1 with
    | error e' =>
      rw [hfp] at h
      simp at h
    | ok pr =>
      obtain ⟨fraw, fds, s2⟩ := pr
      rw [hfp] at h
      dsimp only at h
      cases hep : lexExpPart s2 with
      | error e' =>
        rw [hep] at h
        simp at h
      | ok pr =>
        obtain ⟨eraw, eneg, eds, s3⟩ := pr
        rw [hep] at h
        simp only [Except.ok.injEq, Prod.mk.injEq] at h
        obtain ⟨-, hrest⟩ := h
        obtain ⟨hs0, hipP⟩ := lexIntPart_ok hip
        obtain ⟨hs1, hfpP⟩ := lexFracPart_ok hfp
        obtain ⟨hs2, hepP⟩ := lexExpPart_ok hep
        have hfrac : fraw = [] ∨ FracPart fraw := by
          rcases hfpP with ⟨h1, -, -⟩ | ⟨h1, -⟩
          · exact Or.inl h1
          · exact Or.inr h1
        have hexp : eraw = [] ∨ ExpPart eraw := by
          rcases hepP with ⟨h1, -⟩ | h1
          · exact Or.inl h1
          · exact Or.inr h1
        by_cases hsgn : input.headD 0 = 45
        · refine ⟨[45] ++ ds ++ fraw ++ eraw, ?_, [45], ds, fraw, eraw, by simp, Or.inr rfl,
            hipP, hfrac, hexp⟩
          rw [if_pos hsgn] at hs0
          cases input with
          | nil => simp at hsgn
          | cons x xs =>
            simp only [List.headD_cons] at hsgn
            subst hsgn
            rw [List.tail_cons] at hs0
            rw [hs0, hs1, hs2, hrest]
            simp
        · refine ⟨ds ++ fraw ++ eraw, ?_, [], ds, fraw, eraw, by simp, Or.inl rfl,
            hipP, hfrac, hexp⟩
          rw [if_neg hsgn] at hs0
          rw [hs0, hs1, hs2, hrest]
          simp

/-! The infinity rejection -/

theorem parseNumber_inf {input : List Nat} {L : LexedNum} {rest : List Nat}
    (hlex : lexNumber input = .ok (L, rest))
    (hfl : (!L.fracRaw.isEmpty || !L.expRaw.isEmpty) = true)
    (hinf : strtodIsInf (digitsVal (L.intDs ++ L.frDs)) (lexE10 L) = true) :
    parseNumber input = .error .InvalidNumber := by
  unfold parseNumber
  rw [hlex]
  dsimp only
  rw [if_pos hfl]
  dsimp only
  rw [if_pos hinf]

/-! Completeness: any token of the grammar lexes fully -/

theorem IntPart_head {ip : List Nat} (h : IntPart ip) :
    ∃ c tl, ip = c :: tl ∧ 48 ≤ c ∧ c ≤ 57 := by
  rcases h with h | ⟨c, ds, h, h1, h2, -⟩
  · exact ⟨48, [], h, le_refl _, by omega⟩
  · exact ⟨c, ds, h, by omega, h2⟩

theorem numTail_not_digit {fp ep : List Nat} (hfp : fp = [] ∨ FracPart fp)
    (hep : ep = [] ∨ ExpPart ep) :
    ∀ b t, fp ++ ep = b :: t → isDigitB b = false := by
  intro b t hbt
  rcases hfp with hfp | ⟨ds, hfp, -, -⟩
  · subst hfp
    rcases hep with hep | ⟨e, sgn, ds, hep, he, -, -, -⟩
    · subst hep; simp at hbt
    · rw [hep] at hbt
      simp only [List.nil_append, List.cons.injEq] at hbt
      rw [← hbt.1]
      rcases he with he | he <;> subst he <;> decide
  · rw [hfp] at hbt
    simp only [List.cons_append, List.cons.injEq] at hbt
    rw [← hbt.1]
    decide

theorem lexIntPart_complete {ip B : List Nat} (hip : IntPart ip)
    (hB : ∀ b t, B = b :: t → isDigitB b = false) :
    lexIntPart (ip ++ B) = .ok (ip, B) := by
  rcases hip with h | ⟨c, ds, h, h1, h2, h3⟩
  · subst h
    unfold lexIntPart
    simp
  · subst h
    unfold lexIntPart
    rw [List.cons_append]
    dsimp only
    rw [if_neg (by omega), if_pos (by simp [isDigitB]; omega)]
    rw [show (c :: (ds ++ B)) = (c :: ds) ++ B by rfl]
    rw [span_append_eq ?_ hB]
    intro a ha
    rcases List.mem_cons.mp ha with ha | ha
    · subst ha; simp [isDigitB]; omega
    · exact List.all_eq_true.mp h3 a ha

theorem lexFracPart_complete {fp ep : List Nat} (hfp : fp = [] ∨ FracPart fp)
    (hepB : ep = [] ∨ ∃ e t, ep = e :: t ∧ (e = 101 ∨ e = 69)) :
    lexFracPart (fp ++ ep) = .ok (fp, fp.tail, ep) := by
  rcases hfp with hfp | ⟨ds, hfp, hne, hall⟩
  · subst hfp
    rcases hepB with hep | ⟨e, t, hep, he⟩
    · subst hep; rfl
    · subst hep
      unfold lexFracPart
      rw [List.nil_append]
      dsimp only
      rw [if_neg (by rcases he with he | he <;> omega)]
      rfl
  · subst hfp
    unfold lexFracPart
    rw [List.cons_append]
    dsimp only
    rw [if_pos rfl]
    cases ds with
    | nil => exact absurd rfl hne
    | cons d t =>
      have hd : isDigitB d = true := List.all_eq_true.mp hall d (List.mem_cons_self _ _)
      rw [List.cons_append]
      dsimp only
      rw [if_pos hd]
      rw [show (d :: (t ++ ep)) = (d :: t) ++ ep from rfl]
      rw [span_append_eq ?_ ?_]
      · rfl
      · exact fun a ha => List.all_eq_true.mp hall a ha
      · intro b t' hbt
        rcases hepB with hep | ⟨e, t'', hep, he⟩
        · subst hep; simp at hbt
        · rw [hep] at hbt
          rw [← (List.cons.injEq .. |>.mp hbt).1]
          rcases he with he | he <;> subst he <;> decide

theorem lexExpDigits_complete {c : Nat} {sgnRaw : List Nat} {sgnNeg : Bool} {ds : List Nat}
    (hne : ds ≠ []) (hall : ds.all isDigitB = true) :
    lexExpDigits c sgnRaw sgnNeg ds = .ok (c :: sgnRaw ++ ds, sgnNeg, ds, []) := by
  cases ds with
  | nil => exact absurd rfl hne
  | cons d t =>
    have hd : isDigitB d = true := List.all_eq_true.mp hall d (List.mem_cons_self _ _)
    unfold lexExpDigits
    dsimp only
    rw [if_pos hd]
    rw [show (d :: t) = (d :: t) ++ [] by simp]
    rw [span_append_eq ?_ ?_]
    · simp
    · exact fun a ha => List.all_eq_true.mp hall a ha
    · intro b t' hbt
      simp at hbt

theorem lexExpPart_complete {ep : List Nat} (hep : ep = [] ∨ ExpPart ep) :
    ∃ neg ds, lexExpPart ep = .ok (ep, neg, ds, []) := by
  rcases hep with hep | ⟨e, sgn, ds, hep, he, hsgn, hne, hall⟩
  · subst hep; exact ⟨false, [], rfl⟩
  · subst hep
    have hcond : (e = 101 || e = 69) = true := by
      rcases he with he | he <;> simp [he]
    have hd0 : ∀ d ∈ ds, 48 ≤ d ∧ d ≤ 57 := by
      intro d hd
      have := List.all_eq_true.mp hall d hd
      simp only [isDigitB, Bool.and_eq_true, decide_eq_true_eq] at this
      exact this
    rcases hsgn with hs | hs | hs
    · subst hs
      cases ds with
      | nil => exact absurd rfl hne
      | cons d t =>
        have hd := hd0 d (List.mem_cons_self _ _)
        refine ⟨false, d :: t, ?_⟩
        unfold lexExpPart
        dsimp only
        rw [if_pos hcond]
        rw [show ([] ++ (d :: t) : List Nat) = d :: t by rfl]
        rw [if_neg (by simp; omega), if_neg (by simp; omega)]
        exact lexExpDigits_complete hne hall
    · subst hs
      refine ⟨false, ds, ?_⟩
      unfold lexExpPart
      dsimp only
      rw [if_pos hcond]
      rw [show (([43] ++ ds : List Nat)) = 43 :: ds by rfl]
      rw [if_pos (by simp)]
      rw [List.tail_cons]
      exact lexExpDigits_complete hne hall
    · subst hs
      refine ⟨true, ds, ?_⟩
      unfold lexExpPart
      dsimp only
      rw [if_pos hcond]
      rw [show (([45] ++ ds : List Nat)) = 45 :: ds by rfl]
      rw [if_neg (by simp), if_pos (by simp)]
      rw [List.tail_cons]
      exact lexExpDigits_complete hne hall

theorem lexNumber_complete {tok : List Nat} (h : NumToken tok) :
    ∃ L, lexNumber tok = .ok (L, []) := by
  obtain ⟨sgn, ip, fp, ep, htok, hsgn, hip, hfp, hep⟩ := h
  have hepB : ep = [] ∨ ∃ e t, ep = e :: t ∧ (e = 101 ∨ e = 69) := by
    rcases hep with hep | ⟨e, sgn', ds, hep, he, -, -, -⟩
    · exact Or.inl hep
    · exact Or.inr ⟨e, sgn' ++ ds, hep, he⟩
  have hint : lexIntPart (ip ++ (fp ++ ep)) = .ok (ip, fp ++ ep) :=
    lexIntPart_complete hip (numTail_not_digit hfp hep)
  have hfrac : lexFracPart (fp ++ ep) = .ok (fp, fp.tail, ep) :=
    lexFracPart_complete hfp hepB
  obtain ⟨neg, eds, hexp⟩ := lexExpPart_complete hep
  obtain ⟨c, tl, hipc, hc1, hc2⟩ := IntPart_head hip
  rcases hsgn with hs | hs
  · subst hs
    rw [List.nil_append] at htok
    have hhd : ¬tok.headD 0 = 45 := by
      rw [htok, hipc]
      simp
      omega
    refine ⟨⟨decide (tok.headD 0 = 45), ip, fp, fp.tail, ep, neg, eds⟩, ?_⟩
    unfold lexNumber
    dsimp only
    rw [if_neg hhd]
    rw [htok, List.append_assoc, hint]
    dsimp only
    rw [hfrac]
    dsimp only
    rw [hexp]
  · subst hs
    have htok' : tok = 45 :: (ip ++ (fp ++ ep)) := by
      rw [htok]; simp
    have hhd : tok.headD 0 = 45 := by rw [htok']; rfl
    refine ⟨⟨decide (tok.headD 0 = 45), ip, fp, fp.tail, ep, neg, eds⟩, ?_⟩
    unfold lexNumber
    dsimp only
    rw [if_pos hhd]
    rw [htok', List.tail_cons, hint]
    dsimp only
    rw [hfrac]
    dsimp only
    rw [hexp]

theorem parseNumber_ok_lex {input : List Nat} {n : JsonNode} {rest : List Nat}
    (h : parseNumber input = .ok (n, rest)) :
    ∃ L, lexNumber input = .ok (L, rest) := by
  unfold parseNumber at h
  cases hlex : lexNumber input with
  | error e => rw [hlex] at h; simp at h
  | ok pr =>
    obtain ⟨L, r⟩ := pr
    rw [hlex] at h
    dsimp only at h
    split at h
    all_goals try dsimp only at h
    all_goals try split at h
    all_goals first
      | (simp only [Except.ok.injEq, Prod.mk.injEq] at h; exact ⟨L, by rw [h.2]⟩)
      | simp at h

/-- C8: `parseNumber` accepts exactly the grammar
`-?(0|[1-9][0-9]*)(\.[0-9]+)?([eE][+-]?[0-9]+)?`: every token of the grammar lexes fully, every
accepted input starts with a grammar token, every failure carries `InvalidNumber`, and a lexed
floating-point literal whose value overflows to infinity is rejected with `InvalidNumber`. -/
theorem claim_C8_number_grammar :
    (∀ tok : List Nat, NumToken tok → ∃ L, lexNumber tok = .ok (L, [])) ∧
    (∀ (input : List Nat) (n : JsonNode) (rest : List Nat),
        parseNumber input = .ok (n, rest) → ∃ tok, input = tok ++ rest ∧ NumToken tok) ∧
    (∀ (input : List Nat) (e : JsonErrorCode),
        parseNumber input = .error e → e = .InvalidNumber) ∧
    (∀ (input : List Nat) (L : LexedNum) (rest : List Nat),
        lexNumber input = .ok (L, rest) →
        (!L.fracRaw.isEmpty || !L.expRaw.isEmpty) = true →
        strtodIsInf (digitsVal (L.intDs ++ L.frDs)) (lexE10 L) = true →
        parseNumber input = .error .InvalidNumber) := by
  refine ⟨fun tok h => lexNumber_complete h, ?_, fun input e h => parseNumber_err h,
    fun input L rest h1 h2 h3 => parseNumber_inf h1 h2 h3⟩
  intro input n rest h
  obtain ⟨L, hlex⟩ := parseNumber_ok_lex h
  exact lexNumber_sound hlex

theorem claim_C8_witness :
    (∃ L, lexNumber (bytes "-12.5e3") = .ok (L, [])) ∧
    parseNumber (bytes "1e309") = .error .InvalidNumber := by
  constructor
  · exact claim_C8_number_grammar.1 (bytes "-12.5e3")
      ⟨[45], [49, 50], [46, 53], [101, 51], rfl, Or.inr rfl,
        Or.inr ⟨49, [50], rfl, by decide, by decide, by decide⟩,
        Or.inr ⟨[53], rfl, by decide, by decide⟩,
        Or.inr ⟨101, [], [51], rfl, Or.inl rfl, Or.inl rfl, by decide, by decide⟩⟩
  · refine claim_C8_number_grammar.2.2.2 (bytes "1e309")
      ⟨false, [49], [], [], [101, 51, 48, 57], false, [51, 48, 57]⟩ [] rfl rfl ?_
    set_option maxRecDepth 16384 in decide


/-! Order theory for std::map keys -/

theorem keyLt_irrefl (a : List Nat) : keyLt a a = false := by
  induction a with
  | nil => rfl
  | cons x xs ih => simp [keyLt, ih]

theorem keyLt_trans {a b c : List Nat} (h1 : keyLt a b = true) (h2 : keyLt b c = true) :
    keyLt a c = true := by
  induction a generalizing b c with
  | nil =>
    cases b with
    | nil => simp [keyLt] at h1
    | cons y ys =>
      cases c with
      | nil => simp [keyLt] at h2
      | cons z zs => simp [keyLt]
  | cons x xs ih =>
    cases b with
    | nil => simp [keyLt] at h1
    | cons y ys =>
      cases c with
      | nil => simp [keyLt] at h2
      | cons z zs =>
        simp only [keyLt] at h1 h2 ⊢
        by_cases hxy : x < y
        · by_cases hyz : y < z
          · simp [show x < z by omega]
          · by_cases hzy : z < y
            · simp [hyz, hzy] at h2
            · simp [show x < z by omega]
        · by_cases hyx : y < x
          · simp [hxy, hyx] at h1
          · by_cases hyz : y < z
            · simp [show x < z by omega]
            · by_cases hzy : z < y
              · simp [hyz, hzy] at h2
              · have hxz : ¬x < z := by omega
                have hzx : ¬z < x := by omega
                simp only [hxy, hyx, if_false, if_neg] at h1
                simp only [hyz, hzy, if_false, if_neg] at h2
                simp only [hxz, hzx, if_false, if_neg]
                exact ih h1 h2

theorem keyLt_total {a b : List Nat} (h1 : keyLt a b = false) (h2 : a ≠ b) :
    keyLt b a = true := by
  induction a generalizing b with
  | nil =>
    cases b with
    | nil => exact absurd rfl h2
    | cons y ys => simp [keyLt] at h1
  | cons x xs ih =>
    cases b with
    | nil => simp [keyLt]
    | cons y ys =>
      simp only [keyLt] at h1 ⊢
      by_cases hxy : x < y
      · simp [hxy] at h1
      · by_cases hyx : y < x
        · simp [hyx]
        · have hxy' : x = y := by omega
          subst hxy'
          simp only [hxy, if_false, if_neg, lt_irrefl] at h1 ⊢
          exact ih h1 (by intro hh; exact h2 (by rw [hh]))

/-! Pairwise characterisation of objSortedB -/


theorem objSortedB_iff_pairwise (o : JsonObj) :
    objSortedB o = true ↔ List.Pairwise keyRel o := by
  induction o with
  | nil => simp [objSortedB]
  | cons p o ih =>
    cases o with
    | nil => simp [objSortedB, keyRel]
    | cons q o' =>
      obtain ⟨k1, v1⟩ := p
      obtain ⟨k2, v2⟩ := q
      rw [List.pairwise_cons]
      constructor
      · intro h
        simp only [objSortedB, Bool.and_eq_true] at h
        have hrest := ih.mp h.2
        refine ⟨?_, hrest⟩
        intro r hr
        rcases List.mem_cons.mp hr with hr | hr
        · rw [hr]
          exact h.1
        · have h2 := (List.pairwise_cons.mp hrest).1 r hr
          exact keyLt_trans h.1 h2
      · intro ⟨hall, hrest⟩
        simp only [objSortedB, Bool.and_eq_true]
        exact ⟨hall (k2, v2) (List.mem_cons_self _ _), ih.mpr hrest⟩

theorem objErase_sublist (k : List Nat) (o : JsonObj) : (objErase k o).Sublist o := by
  induction o with
  | nil => simp [objErase]
  | cons p o ih =>
    obtain ⟨k', v⟩ := p
    by_cases h : k' = k
    · simp [objErase, h]
    · simpa [objErase, h] using ih.cons₂ (k', v)

theorem objErase_sorted {k : List Nat} {o : JsonObj} (h : objSortedB o = true) :
    objSortedB (objErase k o) = true := by
  rw [objSortedB_iff_pairwise] at h ⊢
  exact h.sublist (objErase_sublist k o)

theorem objErase_mem {k : List Nat} {o : JsonObj} {p : List Nat × JsonNode}
    (h : p ∈ objErase k o) : p ∈ o :=
  (objErase_sublist k o).mem h

theorem objInsert_mem {k : List Nat} {v : JsonNode} {o : JsonObj} {p : List Nat × JsonNode}
    (h : p ∈ objInsert k v o) : p = (k, v) ∨ p ∈ o := by
  induction o with
  | nil => simpa [objInsert] using h
  | cons q o ih =>
    obtain ⟨k', v'⟩ := q
    simp only [objInsert] at h
    split_ifs at h with h1 h2
    · rcases List.mem_cons.mp h with h' | h'
      · exact Or.inl h'
      · exact Or.inr h'
    · rcases List.mem_cons.mp h with h' | h'
      · exact Or.inl h'
      · exact Or.inr (List.mem_cons_of_mem _ h')
    · rcases List.mem_cons.mp h with h' | h'
      · exact Or.inr (by rw [h']; exact List.mem_cons_self _ _)
      · rcases ih h' with h'' | h''
        · exact Or.inl h''
        · exact Or.inr (List.mem_cons_of_mem _ h'')

theorem objInsert_sorted {k : List Nat} {v : JsonNode} {o : JsonObj}
    (h : objSortedB o = true) : objSortedB (objInsert k v o) = true := by
  rw [objSortedB_iff_pairwise] at h ⊢
  induction o with
  | nil => simp [objInsert, keyRel]
  | cons q o ih =>
    obtain ⟨k', v'⟩ := q
    rw [List.pairwise_cons] at h
    simp only [objInsert]
    split_ifs with h1 h2
    · rw [List.pairwise_cons]
      refine ⟨?_, List.pairwise_cons.mpr h⟩
      intro r hr
      rcases List.mem_cons.mp hr with hr | hr
      · rw [hr]
        exact h1
      · exact keyLt_trans h1 (h.1 r hr)
    · rw [List.pairwise_cons]
      refine ⟨?_, h.2⟩
      intro r hr
      have hk := h.1 r hr
      show keyLt k r.1 = true
      rw [h2] at hk
      exact hk
    · rw [List.pairwise_cons]
      refine ⟨?_, ih h.2⟩
      intro r hr
      rcases objInsert_mem hr with h' | h'
      · rw [h']
        exact keyLt_total (by simpa using h1) (fun hh => h2 hh.symm)
      · exact h.1 r h'

theorem objFind_mem {k : List Nat} {o : JsonObj} {v : JsonNode}
    (h : objFind k o = some v) : (k, v) ∈ o := by
  induction o with
  | nil => simp [objFind] at h
  | cons q o ih =>
    obtain ⟨k', v'⟩ := q
    simp only [objFind] at h
    split_ifs at h with h1
    · simp only [Option.some.injEq] at h
      rw [h1, h]
      exact List.mem_cons_self _ _
    · exact List.mem_cons_of_mem _ (ih h)

/-! WF preservation through the loop's primitive steps -/

theorem applyFrame_wf {f : Frame} {v : JsonNode} (hf : WFFrame f) (hv : WFNode v) :
    WFNode (applyFrame f v) := by
  cases f with
  | arrF before =>
    refine WFNode.arr _ ?_
    intro x hx
    rcases List.mem_append.mp hx with h | h
    · exact hf x h
    · simp only [List.mem_singleton] at h
      rw [h]
      exact hv
  | objF others k =>
    refine WFNode.obj _ (objInsert_sorted hf.1) ?_
    intro p hp
    rcases objInsert_mem hp with h | h
    · rw [h]
      exact hv
    · exact hf.2 p h

theorem parseLiteral_wf {s r : List Nat} {v : JsonNode}
    (h : parseLiteral s = .ok (v, r)) : WFNode v := by
  unfold parseLiteral at h
  split at h
  · simp only [Except.ok.injEq, Prod.mk.injEq] at h
    rw [← h.1]
    constructor
  · split at h
    · simp only [Except.ok.injEq, Prod.mk.injEq] at h
      rw [← h.1]
      constructor
    · split at h
      · simp only [Except.ok.injEq, Prod.mk.injEq] at h
        rw [← h.1]
        constructor
      · simp at h

theorem parseNumber_wf {s r : List Nat} {v : JsonNode}
    (h : parseNumber s = .ok (v, r)) : WFNode v := by
  unfold parseNumber at h
  split at h
  · simp at h
  · all_goals try split at h
    all_goals try split at h
    all_goals try split at h
    all_goals try dsimp only at h
    all_goals try split at h
    all_goals try split at h
    all_goals
      first
        | (try simp only [Except.ok.injEq, Prod.mk.injEq] at h
           rw [← h.1]
           constructor)
        | simp at h

theorem WFFrame_nil_arr : WFFrame (.arrF []) := by
  intro x hx
  simp at hx

theorem WFFrame_nil_obj (k : List Nat) : WFFrame (.objF [] k) := by
  refine ⟨rfl, ?_⟩
  intro p hp
  simp at hp

theorem parseLoop_wf :
    ∀ (fuel : Nat) (focus : JsonNode) (ctxs : List Frame) (input : List Nat)
      (root : JsonNode) (rest : List Nat), WFNode focus → (∀ f ∈ ctxs, WFFrame f) →
      parseLoop fuel focus ctxs input = some (.ok root rest) → WFNode root := by
  intro fuel
  induction fuel with
  | zero =>
    intro focus ctxs input root rest _ _ h
    simp [parseLoop] at h
  | succ fuel ih =>
    intro focus ctxs input root rest hf hc h
    have hctail : ∀ (g : Frame) (fs : List Frame), (∀ f ∈ g :: fs, WFFrame f) →
        ∀ f ∈ fs, WFFrame f := fun g fs hall f hfm => hall f (List.mem_cons_of_mem _ hfm)
    simp only [parseLoop] at h
    cases hss : skipSpace input with
    | nil =>
      rw [hss] at h
      simp at h
    | cons c inp =>
    rw [hss] at h
    dsimp only at h
    split at h
    -- literal branch
    · cases hlq : parseLiteral (c :: inp) with
      | error e =>
        rw [hlq] at h
        simp at h
      | ok pr =>
        obtain ⟨v, rest'⟩ := pr
        rw [hlq] at h
        dsimp only at h
        cases ctxs with
        | nil =>
          simp only [Option.some.injEq, LoopResult.ok.injEq] at h
          rw [← h.1]
          exact parseLiteral_wf hlq
        | cons f fs =>
          exact ih _ _ _ _ _ (applyFrame_wf (hc f (List.mem_cons_self _ _))
            (parseLiteral_wf hlq)) (hctail f fs hc) h
    · split at h
      -- string branch
      · cases hsq : parseString inp with
        | error e =>
          rw [hsq] at h
          simp at h
        | ok pr =>
          obtain ⟨s', rest'⟩ := pr
          rw [hsq] at h
          dsimp only at h
          cases ctxs with
          | nil =>
            simp only [Option.some.injEq, LoopResult.ok.injEq] at h
            rw [← h.1]
            constructor
          | cons f fs =>
            exact ih _ _ _ _ _ (applyFrame_wf (hc f (List.mem_cons_self _ _))
              (WFNode.str s')) (hctail f fs hc) h
      · split at h
        -- '[' branch
        · cases hss2 : skipSpace inp with
          | nil =>
            rw [hss2] at h
            simp at h
          | cons d inp2 =>
            rw [hss2] at h
            dsimp only at h
            split at h
            · cases ctxs with
              | nil =>
                simp only [Option.some.injEq, LoopResult.ok.injEq] at h
                rw [← h.1]
                exact WFNode.arr [] (by intro x hx; simp at hx)
              | cons f fs =>
                exact ih _ _ _ _ _ (applyFrame_wf (hc f (List.mem_cons_self _ _))
                  (WFNode.arr [] (by intro x hx; simp at hx))) (hctail f fs hc) h
            · refine ih _ _ _ _ _ WFNode.null ?_ h
              intro f hfm
              rcases List.mem_cons.mp hfm with hfm | hfm
              · rw [hfm]
                exact WFFrame_nil_arr
              · exact hc f hfm
        · split at h
          -- ']' branch
          · cases focus with
            | arr a =>
              dsimp only at h
              cases ctxs with
              | nil =>
                simp only [Option.some.injEq, LoopResult.ok.injEq] at h
                rw [← h.1]
                exact hf
              | cons f fs =>
                exact ih _ _ _ _ _ (applyFrame_wf (hc f (List.mem_cons_self _ _)) hf)
                  (hctail f fs hc) h
            | null => simp at h
            | bool b => simp at h
            | double d => simp at h
            | int i => simp at h
            | uint u => simp at h
            | str s' => simp at h
            | obj o => simp at h
          · split at h
            -- '{' branch
            · cases hss2 : skipSpace inp with
              | nil =>
                rw [hss2] at h
                simp at h
              | cons d inp2 =>
                rw [hss2] at h
                dsimp only at h
                split at h
                · cases ctxs with
                  | nil =>
                    simp only [Option.some.injEq, LoopResult.ok.injEq] at h
                    rw [← h.1]
                    exact WFNode.obj [] rfl (by intro p hp; simp at hp)
                  | cons f fs =>
                    exact ih _ _ _ _ _ (applyFrame_wf (hc f (List.mem_cons_self _ _))
                      (WFNode.obj [] rfl (by intro p hp; simp at hp))) (hctail f fs hc) h
                · split at h
                  · cases hkq : parseKeyWithColon inp2 with
                    | error e =>
                      rw [hkq] at h
                      simp at h
                    | ok pr =>
                      obtain ⟨k, rest'⟩ := pr
                      rw [hkq] at h
                      dsimp only at h
                      refine ih _ _ _ _ _ WFNode.null ?_ h
                      intro f hfm
                      rcases List.mem_cons.mp hfm with hfm | hfm
                      · rw [hfm]
                        exact WFFrame_nil_obj k
                      · exact hc f hfm
                  · simp at h
            · split at h
              -- '}' branch
              · cases focus with
                | obj o =>
                  dsimp only at h
                  cases ctxs with
                  | nil =>
                    simp only [Option.some.injEq, LoopResult.ok.injEq] at h
                    rw [← h.1]
                    exact hf
                  | cons f fs =>
                    exact ih _ _ _ _ _ (applyFrame_wf (hc f (List.mem_cons_self _ _)) hf)
                      (hctail f fs hc) h
                | null => simp at h
                | bool b => simp at h
                | double d => simp at h
                | int i => simp at h
                | uint u => simp at h
                | str s' => simp at h
                | arr a => simp at h
              · split at h
                -- ',' branch
                · cases focus with
                  | arr a =>
                    dsimp only at h
                    cases hf with
                    | arr _ hmem =>
                      refine ih _ _ _ _ _ WFNode.null ?_ h
                      intro f hfm
                      rcases List.mem_cons.mp hfm with hfm | hfm
                      · rw [hfm]
                        exact hmem
                      · exact hc f hfm
                  | obj o =>
                    dsimp only at h
                    cases hf with
                    | obj _ hsort hmem =>
                      cases hss2 : skipSpace inp with
                      | nil =>
                        rw [hss2] at h
                        simp at h
                      | cons d inp2 =>
                        rw [hss2] at h
                        dsimp only at h
                        split at h
                        · cases hkq : parseKeyWithColon inp2 with
                          | error e =>
                            rw [hkq] at h
                            simp at h
                          | ok pr =>
                            obtain ⟨k, rest'⟩ := pr
                            rw [hkq] at h
                            dsimp only at h
                            refine ih _ _ _ _ _ ?_ ?_ h
                            · cases hfind : objFind k o with
                              | none => simpa [hfind] using WFNode.null
                              | some w =>
                                simpa [hfind] using hmem (k, w) (objFind_mem hfind)
                            · intro f hfm
                              rcases List.mem_cons.mp hfm with hfm | hfm
                              · rw [hfm]
                                exact ⟨objErase_sorted hsort,
                                  fun p hp => hmem p (objErase_mem hp)⟩
                              · exact hc f hfm
                        · simp at h
                  | null => simp at h
                  | bool b => simp at h
                  | double d => simp at h
                  | int i => simp at h
                  | uint u => simp at h
                  | str s' => simp at h
                · split at h
                  -- number branch
                  · cases hnq : parseNumber (c :: inp) with
                    | error e =>
                      rw [hnq] at h
                      simp at h
                    | ok pr =>
                      obtain ⟨v, rest'⟩ := pr
                      rw [hnq] at h
                      dsimp only at h
                      cases ctxs with
                      | nil =>
                        simp only [Option.some.injEq, LoopResult.ok.injEq] at h
                        rw [← h.1]
                        exact parseNumber_wf hnq
                      | cons f fs =>
                        exact ih _ _ _ _ _ (applyFrame_wf (hc f (List.mem_cons_self _ _))
                          (parseNumber_wf hnq)) (hctail f fs hc) h
                  · simp at h



/-! Fuel monotonicity of the parse loop -/

theorem parseLoop_mono : ∀ (fuel : Nat) {fuel' : Nat} {focus : JsonNode} {ctxs : List Frame}
    {input : List Nat} {r : LoopResult},
    parseLoop fuel focus ctxs input = some r → fuel ≤ fuel' →
    parseLoop fuel' focus ctxs input = some r := by
  intro fuel
  induction fuel with
  | zero =>
    intro fuel' focus ctxs input r h _
    simp [parseLoop] at h
  | succ fuel ih =>
    intro fuel' focus ctxs input r h hle
    obtain ⟨fuel'', rfl⟩ : ∃ f, fuel' = f + 1 := ⟨fuel' - 1, by omega⟩
    have hle' : fuel ≤ fuel'' := by omega
    simp only [parseLoop] at h ⊢
    cases hss : skipSpace input with
    | nil =>
      rw [hss] at h
      exact h
    | cons c inp =>
    rw [hss] at h
    dsimp only at h ⊢
    by_cases h1 : (decide (c = 110) || decide (c = 116) || decide (c = 102)) = true
    · rw [if_pos h1] at h ⊢
      cases hlq : parseLiteral (c :: inp) with
      | error e =>
        rw [hlq] at h
        exact h
      | ok pr =>
        obtain ⟨v, rest'⟩ := pr
        rw [hlq] at h
        dsimp only at h ⊢
        cases ctxs with
        | nil => exact h
        | cons f fs => exact ih h hle'
    · rw [if_neg h1] at h ⊢
      by_cases h2 : c = 34
      · rw [if_pos h2] at h ⊢
        cases hpq : parseString inp with
        | error e =>
          rw [hpq] at h
          exact h
        | ok pr =>
          obtain ⟨s, rest'⟩ := pr
          rw [hpq] at h
          dsimp only at h ⊢
          cases ctxs with
          | nil => exact h
          | cons f fs => exact ih h hle'
      · rw [if_neg h2] at h ⊢
        by_cases h3 : c = 91
        · rw [if_pos h3] at h ⊢
          cases hss2 : skipSpace inp with
          | nil =>
            rw [hss2] at h
            exact h
          | cons d inp2 =>
            rw [hss2] at h
            dsimp only at h ⊢
            by_cases h4 : d = 93
            · rw [if_pos h4] at h ⊢
              cases ctxs with
              | nil => exact h
              | cons f fs => exact ih h hle'
            · rw [if_neg h4] at h ⊢
              exact ih h hle'
        · rw [if_neg h3] at h ⊢
          by_cases h4 : c = 93
          · rw [if_pos h4] at h ⊢
            cases focus with
            | arr a =>
              cases ctxs with
              | nil => exact h
              | cons f fs => exact ih h hle'
            | null => exact h
            | bool b => exact h
            | double d => exact h
            | int i => exact h
            | uint u => exact h
            | str s => exact h
            | obj o => exact h
          · rw [if_neg h4] at h ⊢
            by_cases h5 : c = 123
            · rw [if_pos h5] at h ⊢
              cases hss2 : skipSpace inp with
              | nil =>
                rw [hss2] at h
                exact h
              | cons d inp2 =>
                rw [hss2] at h
                dsimp only at h ⊢
                by_cases h6 : d = 125
                · rw [if_pos h6] at h ⊢
                  cases ctxs with
                  | nil => exact h
                  | cons f fs => exact ih h hle'
                · rw [if_neg h6] at h ⊢
                  by_cases h7 : d = 34
                  · rw [if_pos h7] at h ⊢
                    cases hk : parseKeyWithColon inp2 with
                    | error e =>
                      rw [hk] at h
                      exact h
                    | ok pr =>
                      obtain ⟨k, rest'⟩ := pr
                      rw [hk] at h
                      dsimp only at h ⊢
                      exact ih h hle'
                  · rw [if_neg h7] at h ⊢
                    exact h
            · rw [if_neg h5] at h ⊢
              by_cases h6 : c = 125
              · rw [if_pos h6] at h ⊢
                cases focus with
                | obj o =>
                  cases ctxs with
                  | nil => exact h
                  | cons f fs => exact ih h hle'
                | null => exact h
                | bool b => exact h
                | double d => exact h
                | int i => exact h
                | uint u => exact h
                | str s => exact h
                | arr a => exact h
              · rw [if_neg h6] at h ⊢
                by_cases h7 : c = 44
                · rw [if_pos h7] at h ⊢
                  cases focus with
                  | arr a => exact ih h hle'
                  | obj o =>
                    cases hss2 : skipSpace inp with
                    | nil =>
                      rw [hss2] at h
                      exact h
                    | cons d inp2 =>
                      rw [hss2] at h
                      dsimp only at h ⊢
                      by_cases h8 : d = 34
                      · rw [if_pos h8] at h ⊢
                        cases hk : parseKeyWithColon inp2 with
                        | error e =>
                          rw [hk] at h
                          exact h
                        | ok pr =>
                          obtain ⟨k, rest'⟩ := pr
                          rw [hk] at h
                          dsimp only at h ⊢
                          exact ih h hle'
                      · rw [if_neg h8] at h ⊢
                        exact h
                  | null => exact h
                  | bool b => exact h
                  | double d => exact h
                  | int i => exact h
                  | uint u => exact h
                  | str s => exact h
                · rw [if_neg h7] at h ⊢
                  by_cases h8 : (isDigitB c || decide (c = 45)) = true
                  · rw [if_pos h8] at h ⊢
                    cases hn : parseNumber (c :: inp) with
                    | error e =>
                      rw [hn] at h
                      exact h
                    | ok pr =>
                      obtain ⟨v, rest'⟩ := pr
                      rw [hn] at h
                      dsimp only at h ⊢
                      cases ctxs with
                      | nil => exact h
                      | cons f fs => exact ih h hle'
                  · rw [if_neg h8] at h ⊢
                    exact h

/-! Digits of `dumpUint64` -/

theorem dumpUint64Core_append (fuel : Nat) : ∀ (u : Nat) (acc : List Nat),
    dumpUint64Core fuel u acc = dumpUint64Core fuel u [] ++ acc := by
  induction fuel with
  | zero => intro u acc; rfl
  | succ fuel ih =>
    intro u acc
    unfold dumpUint64Core
    by_cases h : 9 < u
    · rw [if_pos h, if_pos h, ih (u / 10) ((48 + u % 10) :: acc), ih (u / 10) [48 + u % 10]]
      simp
    · rw [if_neg h, if_neg h]
      rfl

theorem foldl_digits (ds : List Nat) : ∀ (n : Nat),
    ds.foldl (fun n d => n * 10 + (d - 48)) n = n * 10 ^ ds.length + digitsVal ds := by
  induction ds with
  | nil => intro n; simp [digitsVal]
  | cons d ds ih =>
    intro n
    rw [List.foldl_cons]
    rw [ih (n * 10 + (d - 48))]
    have hd : digitsVal (d :: ds) = (d - 48) * 10 ^ ds.length + digitsVal ds := by
      rw [digitsVal, List.foldl_cons, ih (0 * 10 + (d - 48))]
      ring_nf
    rw [hd, List.length_cons]
    ring

theorem digitsVal_append_one (ds : List Nat) (d : Nat) :
    digitsVal (ds ++ [d]) = 10 * digitsVal ds + (d - 48) := by
  rw [digitsVal, List.foldl_append, List.foldl_cons, List.foldl_nil]
  show digitsVal ds * 10 + (d - 48) = _
  ring

theorem dumpUint64Core_spec (fuel : Nat) : ∀ (u : Nat), u < 10 ^ (fuel + 1) →
    IntPart (dumpUint64Core fuel u []) ∧ digitsVal (dumpUint64Core fuel u []) = u := by
  induction fuel with
  | zero =>
    intro u hu
    have hu' : u < 10 := by simpa using hu
    unfold dumpUint64Core
    constructor
    · rcases Nat.eq_zero_or_pos u with h0 | h0
      · subst h0
        exact Or.inl rfl
      · exact Or.inr ⟨48 + u, [], rfl, by omega, by omega, rfl⟩
    · simp [digitsVal]
  | succ fuel ih =>
    intro u hu
    unfold dumpUint64Core
    by_cases h : 9 < u
    · rw [if_pos h, dumpUint64Core_append]
      have hdiv : u / 10 < 10 ^ (fuel + 1) := by
        rw [Nat.div_lt_iff_lt_mul (by norm_num)]
        calc u < 10 ^ (fuel + 1 + 1) := hu
        _ = 10 ^ (fuel + 1) * 10 := by ring
      obtain ⟨hip, hval⟩ := ih (u / 10) hdiv
      constructor
      · rcases hip with h48 | ⟨c, ds, hds, hc1, hc2, hall⟩
        · rw [h48] at hval
          have : u / 10 = 0 := by simpa [digitsVal] using hval.symm
          omega
        · rw [hds]
          refine Or.inr ⟨c, ds ++ [48 + u % 10], by simp, hc1, hc2, ?_⟩
          rw [List.all_append]
          refine Bool.and_eq_true _ _ |>.mpr ⟨hall, ?_⟩
          simp [isDigitB]
          omega
      · rw [digitsVal_append_one, hval]
        omega
    · rw [if_neg h]
      constructor
      · rcases Nat.eq_zero_or_pos u with h0 | h0
        · subst h0
          exact Or.inl rfl
        · exact Or.inr ⟨48 + u, [], rfl, by omega, by omega, rfl⟩
      · simp [digitsVal]

theorem dumpUint64_spec {u : Nat} (hu : u < 2 ^ 64) :
    IntPart (dumpUint64 u) ∧ digitsVal (dumpUint64 u) = u :=
  dumpUint64Core_spec 19 u (lt_of_lt_of_le hu (by norm_num))

theorem IntPart_all {l : List Nat} (h : IntPart l) : l.all isDigitB = true := by
  rcases h with h | ⟨c, ds, hds, hc1, hc2, hall⟩
  · rw [h]
    rfl
  · rw [hds, List.all_cons, hall]
    simp [isDigitB]
    omega

theorem digitsVal_lt {ds : List Nat} (h : ds.all isDigitB = true) :
    digitsVal ds < 10 ^ ds.length := by
  induction ds with
  | nil => simp [digitsVal]
  | cons d ds ih =>
    rw [List.all_cons, Bool.and_eq_true] at h
    have hd : d ≤ 57 := by
      have := h.1
      simp [isDigitB] at this
      omega
    have := ih h.2
    rw [digitsVal, List.foldl_cons, foldl_digits, List.length_cons]
    have h10 : (0 * 10 + (d - 48)) ≤ 9 := by omega
    calc (0 * 10 + (d - 48)) * 10 ^ ds.length + digitsVal ds
        ≤ 9 * 10 ^ ds.length + digitsVal ds := by
          exact Nat.add_le_add_right (Nat.mul_le_mul_right _ h10) _
      _ < 9 * 10 ^ ds.length + 10 ^ ds.length := by omega
      _ = 10 ^ (ds.length + 1) := by ring

theorem digitsVal_lower {c : Nat} {ds : List Nat} (hc : 49 ≤ c) :
    10 ^ ds.length ≤ digitsVal (c :: ds) := by
  rw [digitsVal, List.foldl_cons, foldl_digits]
  have : 1 ≤ 0 * 10 + (c - 48) := by omega
  calc 10 ^ ds.length = 1 * 10 ^ ds.length + 0 := by ring
  _ ≤ (0 * 10 + (c - 48)) * 10 ^ ds.length + digitsVal ds := by
      exact Nat.add_le_add (Nat.mul_le_mul_right _ this) (Nat.zero_le _)

theorem gtDigits_iff : ∀ (a b : List Nat), a.length = b.length →
    a.all isDigitB = true → b.all isDigitB = true →
    (gtDigits a b = true ↔ digitsVal b < digitsVal a) := by
  intro a
  induction a with
  | nil =>
    intro b hlen _ _
    cases b with
    | nil => simp [gtDigits]
    | cons y bs => simp at hlen
  | cons x as ih =>
    intro b hlen ha hb
    cases b with
    | nil => simp at hlen
    | cons y bs =>
      rw [List.all_cons, Bool.and_eq_true] at ha hb
      have hx : 48 ≤ x ∧ x ≤ 57 := by
        have := ha.1; simp [isDigitB] at this; omega
      have hy : 48 ≤ y ∧ y ≤ 57 := by
        have := hb.1; simp [isDigitB] at this; omega
      have hlen' : as.length = bs.length := by simpa using hlen
      have hva : digitsVal as < 10 ^ as.length := digitsVal_lt ha.2
      have hvb : digitsVal bs < 10 ^ bs.length := digitsVal_lt hb.2
      have hda : digitsVal (x :: as) = (x - 48) * 10 ^ as.length + digitsVal as := by
        rw [digitsVal, List.foldl_cons, foldl_digits]; ring_nf
      have hdb : digitsVal (y :: bs) = (y - 48) * 10 ^ bs.length + digitsVal bs := by
        rw [digitsVal, List.foldl_cons, foldl_digits]; ring_nf
      rw [gtDigits]
      by_cases hxy : x = y
      · rw [if_pos hxy, ih bs hlen' ha.2 hb.2, hda, hdb, hxy, hlen']
        omega
      · rw [if_neg hxy]
        rw [hda, hdb, hlen']
        rw [decide_eq_true_eq]
        rcases Nat.lt_or_ge y x with hlt | hge
        · have hBA : (y - 48) * 10 ^ bs.length + digitsVal bs
              < (x - 48) * 10 ^ bs.length + digitsVal as := by
            have h1 : y - 48 + 1 ≤ x - 48 := by omega
            calc (y - 48) * 10 ^ bs.length + digitsVal bs
                < (y - 48) * 10 ^ bs.length + 10 ^ bs.length := by omega
              _ = (y - 48 + 1) * 10 ^ bs.length := by ring
              _ ≤ (x - 48) * 10 ^ bs.length := Nat.mul_le_mul_right _ h1
              _ ≤ (x - 48) * 10 ^ bs.length + digitsVal as := Nat.le_add_right _ _
          exact ⟨fun _ => hBA, fun _ => hlt⟩
        · have hyx : x < y := by omega
          have hAB : (x - 48) * 10 ^ bs.length + digitsVal as
              < (y - 48) * 10 ^ bs.length + digitsVal bs := by
            have h1 : x - 48 + 1 ≤ y - 48 := by omega
            calc (x - 48) * 10 ^ bs.length + digitsVal as
                < (x - 48) * 10 ^ bs.length + 10 ^ bs.length := by rw [← hlen']; omega
              _ = (x - 48 + 1) * 10 ^ bs.length := by ring
              _ ≤ (y - 48) * 10 ^ bs.length := Nat.mul_le_mul_right _ h1
              _ ≤ (y - 48) * 10 ^ bs.length + digitsVal bs := Nat.le_add_right _ _
          exact ⟨fun h => absurd h (by omega), fun h => absurd h (by omega)⟩

/-! The overflow guards never fire on in-range serialized integers -/

theorem length_le_of_digitsVal {ds : List Nat} {B : Nat} (hip : IntPart ds)
    (hval : digitsVal ds < 10 ^ B) (hB : 1 ≤ B) : ds.length ≤ B := by
  rcases hip with h | ⟨c, t, hds, hc1, _, hall⟩
  · rw [h]
    simpa using hB
  · by_contra hgt
    rw [hds] at hgt
    simp only [List.length_cons, Nat.not_le] at hgt
    have hlow : 10 ^ t.length ≤ digitsVal ds := by
      rw [hds]
      exact digitsVal_lower hc1
    have : 10 ^ B ≤ 10 ^ t.length := Nat.pow_le_pow_right (by norm_num) (by omega)
    omega

theorem unsignedOverflow_dump {u : Nat} (hu : u < 2 ^ 64) :
    unsignedOverflow (dumpUint64 u) = false := by
  obtain ⟨hip, hval⟩ := dumpUint64_spec hu
  have hlen : (dumpUint64 u).length ≤ 20 := by
    refine length_le_of_digitsVal hip ?_ (by norm_num)
    rw [hval]
    exact lt_of_lt_of_le hu (by norm_num)
  unfold unsignedOverflow
  have hmaxlen : maxUnsignedIntStr.length = 20 := rfl
  by_cases h20 : (dumpUint64 u).length = maxUnsignedIntStr.length
  · rw [if_pos h20]
    have hiff := gtDigits_iff (dumpUint64 u) maxUnsignedIntStr h20 (IntPart_all hip) rfl
    have hmv : digitsVal maxUnsignedIntStr = 2 ^ 64 - 1 := rfl
    have : ¬(digitsVal maxUnsignedIntStr < digitsVal (dumpUint64 u)) := by
      rw [hmv, hval]
      omega
    cases hgd : gtDigits (dumpUint64 u) maxUnsignedIntStr with
    | false => rfl
    | true => exact absurd (hiff.mp hgd) this
  · rw [if_neg h20]
    rw [hmaxlen] at h20 ⊢
    simp
    omega

theorem signedOverflow_dump {m : Nat} (hm : m ≤ 2 ^ 63) :
    signedOverflow (dumpUint64 m) = false := by
  obtain ⟨hip, hval⟩ := dumpUint64_spec (lt_of_le_of_lt hm (by norm_num))
  have hlen : (dumpUint64 m).length ≤ 19 := by
    refine length_le_of_digitsVal hip ?_ (by norm_num)
    rw [hval]
    calc m ≤ 2 ^ 63 := hm
    _ < 10 ^ 19 := by norm_num
  unfold signedOverflow
  have hmaxlen : maxSignedIntStr.length = 19 := rfl
  by_cases h19 : (dumpUint64 m).length = maxSignedIntStr.length
  · rw [if_pos h19]
    have hiff := gtDigits_iff (dumpUint64 m) maxSignedIntStr h19 (IntPart_all hip) rfl
    have hmv : digitsVal maxSignedIntStr = 2 ^ 63 := rfl
    have : ¬(digitsVal maxSignedIntStr < digitsVal (dumpUint64 m)) := by
      rw [hmv, hval]
      omega
    cases hgd : gtDigits (dumpUint64 m) maxSignedIntStr with
    | false => rfl
    | true => exact absurd (hiff.mp hgd) this
  · rw [if_neg h19]
    rw [hmaxlen] at h19 ⊢
    simp
    omega

/-! The `INT` accumulator negates the digit value -/

theorem intNegVal_foldl (ds : List Nat) : ∀ (a : Nat), ds.all isDigitB = true →
    List.foldl (fun (n : Int) (d : Nat) => n * 10 - ((d : Int) - 48)) (-(a : Int)) ds =
      -((List.foldl (fun (n : Nat) (d : Nat) => n * 10 + (d - 48)) a ds : Nat) : Int) := by
  induction ds with
  | nil => intro a _; rfl
  | cons d ds ih =>
    intro a hall
    rw [List.all_cons, Bool.and_eq_true] at hall
    have hd : 48 ≤ d ∧ d ≤ 57 := by
      have := hall.1; simp [isDigitB] at this; omega
    rw [List.foldl_cons, List.foldl_cons]
    have hstep : -(a : Int) * 10 - ((d : Int) - 48) = -((a * 10 + (d - 48) : Nat) : Int) := by
      push_cast [hd.1]
      ring
    rw [hstep, ih (a * 10 + (d - 48)) hall.2]

theorem intNegVal_eq {ds : List Nat} (hall : ds.all isDigitB = true) :
    intNegVal ds = -(digitsVal ds : Int) := by
  have := intNegVal_foldl ds 0 hall
  simpa [intNegVal, digitsVal] using this

/-! Lexing a serialized unsigned literal -/

theorem lexFracPart_sep {rest : List Nat} (hsep : SepRest rest) :
    lexFracPart rest = .ok ([], [], rest) := by
  cases rest with
  | nil => rfl
  | cons b t =>
    rcases hsep b t rfl with h | h | h <;> subst h <;> rfl

theorem lexExpPart_sep {rest : List Nat} (hsep : SepRest rest) :
    lexExpPart rest = .ok ([], false, [], rest) := by
  cases rest with
  | nil => rfl
  | cons b t =>
    rcases hsep b t rfl with h | h | h <;> subst h <;> rfl

theorem sep_not_digit {rest : List Nat} (hsep : SepRest rest) :
    ∀ b t, rest = b :: t → isDigitB b = false := by
  intro b t hbt
  rcases hsep b t hbt with h | h | h <;> subst h <;> rfl

theorem lexNumber_dumpUint64 {u : Nat} (hu : u < 2 ^ 64) {rest : List Nat}
    (hsep : SepRest rest) :
    lexNumber (dumpUint64 u ++ rest) =
      .ok (⟨false, dumpUint64 u, [], [], [], false, []⟩, rest) := by
  obtain ⟨hip, hval⟩ := dumpUint64_spec hu
  obtain ⟨c, tl, hds, hc1, hc2⟩ := IntPart_head hip
  have hhd : ((dumpUint64 u ++ rest).headD 0 = 45) = False := by
    rw [hds]
    simp
    omega
  have hint : lexIntPart (dumpUint64 u ++ rest) = .ok (dumpUint64 u, rest) :=
    lexIntPart_complete hip (sep_not_digit hsep)
  unfold lexNumber
  dsimp only
  rw [if_neg (by rw [hhd]; exact id)]
  rw [hint]
  dsimp only
  rw [lexFracPart_sep hsep]
  dsimp only
  rw [lexExpPart_sep hsep]
  dsimp only
  rw [show decide ((dumpUint64 u ++ rest).headD 0 = 45) = false by
    rw [decide_eq_false_iff_not, hhd]; exact id]

theorem parseNumber_dumpUint64 {u : Nat} (hu : u < 2 ^ 64) {rest : List Nat}
    (hsep : SepRest rest) :
    parseNumber (dumpUint64 u ++ rest) = .ok (.uint u, rest) := by
  unfold parseNumber
  rw [lexNumber_dumpUint64 hu hsep]
  simp [unsignedOverflow_dump hu, (dumpUint64_spec hu).2]

theorem lexNumber_dumpNeg {m : Nat} (hm : m < 2 ^ 64) {rest : List Nat}
    (hsep : SepRest rest) :
    lexNumber (45 :: (dumpUint64 m ++ rest)) =
      .ok (⟨true, dumpUint64 m, [], [], [], false, []⟩, rest) := by
  obtain ⟨hip, hval⟩ := dumpUint64_spec hm
  have hint : lexIntPart (dumpUint64 m ++ rest) = .ok (dumpUint64 m, rest) :=
    lexIntPart_complete hip (sep_not_digit hsep)
  unfold lexNumber
  dsimp only
  rw [if_pos (show (45 :: (dumpUint64 m ++ rest)).headD 0 = 45 from rfl), List.tail_cons,
    hint]
  dsimp only
  rw [lexFracPart_sep hsep]
  dsimp only
  rw [lexExpPart_sep hsep]
  dsimp only
  rw [show decide ((45 :: (dumpUint64 m ++ rest)).headD 0 = 45) = true by simp]

theorem parseNumber_dumpInt64 {i : Int} (h1 : -(2 ^ 63) ≤ i) (h2 : i < 2 ^ 63)
    {rest : List Nat} (hsep : SepRest rest) :
    parseNumber (dumpInt64 i ++ rest) =
      .ok (if 0 ≤ i then .uint i.toNat else .int i, rest) := by
  by_cases hneg : i < 0
  · have hm1 : (-i).toNat ≤ 2 ^ 63 := by omega
    have hm2 : (-i).toNat < 2 ^ 64 := by omega
    have hmod : (-i).toNat % 2 ^ 64 = (-i).toNat := Nat.mod_eq_of_lt hm2
    rw [show dumpInt64 i = 45 :: dumpUint64 ((-i).toNat) by
      rw [dumpInt64, if_pos hneg, hmod]]
    rw [List.cons_append]
    unfold parseNumber
    rw [lexNumber_dumpNeg hm2 hsep]
    have hso := signedOverflow_dump hm1
    have hiv : intNegVal (dumpUint64 ((-i).toNat)) = i := by
      rw [intNegVal_eq (IntPart_all (dumpUint64_spec hm2).1), (dumpUint64_spec hm2).2]
      omega
    simp [hso, hiv, hneg, show ¬(0 ≤ i) by omega]
  · have h0 : 0 ≤ i := by omega
    have hu : i.toNat < 2 ^ 64 := by omega
    rw [show dumpInt64 i = dumpUint64 i.toNat by rw [dumpInt64, if_neg hneg]]
    rw [parseNumber_dumpUint64 hu hsep]
    simp [h0]

/-! Byte-level arithmetic for the UTF-8 and escape round trips -/

theorem and15 (x : Nat) : x &&& 15 = x % 16 := by
  have h := Nat.and_pow_two_sub_one_eq_mod x 4
  norm_num at h
  exact h

theorem and63 (x : Nat) : x &&& 63 = x % 64 := by
  have h := Nat.and_pow_two_sub_one_eq_mod x 6
  norm_num at h
  exact h

theorem and255 (x : Nat) : x &&& 255 = x % 256 := by
  have h := Nat.and_pow_two_sub_one_eq_mod x 8
  norm_num at h
  exact h

theorem or_mul_add {k b : Nat} (hb : b < 2 ^ k) (a : Nat) : 2 ^ k * a ||| b = 2 ^ k * a + b :=
  (Nat.mul_add_lt_is_or hb a).symm

theorem shr_eq (x k : Nat) : x >>> k = x / 2 ^ k := Nat.shiftRight_eq_div_pow x k

theorem shl_eq (x k : Nat) : x <<< k = 2 ^ k * x := by
  rw [Nat.shiftLeft_eq]
  ring

theorem and32_c0 : ∀ h, h < 32 → (192 + h) &&& 32 = 0 := by decide

theorem and31_c0 : ∀ h, h < 32 → (192 + h) &&& 31 = h := by decide

theorem and32_e0 : ∀ h, h < 16 → (224 + h) &&& 32 = 32 := by decide

theorem and16_e0 : ∀ h, h < 16 → (224 + h) &&& 16 = 0 := by decide

theorem and15_e0 : ∀ h, h < 16 → (224 + h) &&& 15 = h := by decide

theorem and63_80 : ∀ l, l < 64 → (128 + l) &&& 63 = l := by decide

theorem hexDigitVal_hexNibble : ∀ n, n < 16 → hexDigitVal (hexNibble n) = some n := by decide

/-- Byte shapes of the two-byte UTF-8 encoding. -/
theorem encodeUtf8_two {u : Nat} (h1 : 0x80 ≤ u) (h2 : u ≤ 0x7FF) :
    encodeUtf8 u = [192 + u / 64, 128 + u % 64] := by
  unfold encodeUtf8
  rw [if_neg (by omega), if_pos h2]
  have e1 : 0xC0 ||| (u >>> 6 &&& 0xFF) = 192 + u / 64 := by
    rw [shr_eq, and255]
    norm_num
    rw [Nat.mod_eq_of_lt (by omega)]
    rw [show (192 : Nat) = 2 ^ 6 * 3 by norm_num, or_mul_add (by omega)]
  have e2 : 0x80 ||| (u &&& 0x3F) = 128 + u % 64 := by
    rw [and63]
    rw [show (128 : Nat) = 2 ^ 6 * 2 by norm_num, or_mul_add (by omega)]
  rw [e1, e2]

/-- Byte shapes of the three-byte UTF-8 encoding. -/
theorem encodeUtf8_three {u : Nat} (h1 : 0x800 ≤ u) (h2 : u ≤ 0xFFFF) :
    encodeUtf8 u = [224 + u / 4096, 128 + u / 64 % 64, 128 + u % 64] := by
  unfold encodeUtf8
  rw [if_neg (by omega), if_neg (by omega), if_pos h2]
  have e1 : 0xE0 ||| (u >>> 12 &&& 0xFF) = 224 + u / 4096 := by
    rw [shr_eq, and255]
    norm_num
    rw [Nat.mod_eq_of_lt (by omega)]
    rw [show (224 : Nat) = 2 ^ 5 * 7 by norm_num, or_mul_add (by omega)]
  have e2 : 0x80 ||| (u >>> 6 &&& 0x3F) = 128 + u / 64 % 64 := by
    rw [shr_eq, and63]
    norm_num
    rw [show (128 : Nat) = 2 ^ 6 * 2 by norm_num, or_mul_add (by omega)]
  have e3 : 0x80 ||| (u &&& 0x3F) = 128 + u % 64 := by
    rw [and63]
    rw [show (128 : Nat) = 2 ^ 6 * 2 by norm_num, or_mul_add (by omega)]
  rw [e1, e2, e3]

theorem dumpStep_len (c : Nat) (rest : List Nat) :
    (dumpStep c rest).2.length ≤ rest.length := by
  unfold dumpStep
  by_cases g1 : (decide (c = 34) || decide (c = 92)) = true
  · rw [if_pos g1]
  rw [if_neg g1]
  by_cases g2 : c = 8
  · rw [if_pos g2]
  rw [if_neg g2]
  by_cases g3 : c = 12
  · rw [if_pos g3]
  rw [if_neg g3]
  by_cases g4 : c = 10
  · rw [if_pos g4]
  rw [if_neg g4]
  by_cases g5 : c = 13
  · rw [if_pos g5]
  rw [if_neg g5]
  by_cases g6 : c = 9
  · rw [if_pos g6]
  rw [if_neg g6]
  by_cases g7 : 128 ≤ c
  · rw [if_pos g7]
    by_cases g8 : c &&& 32 = 0
    · rw [if_pos g8]
      cases rest with
      | nil => exact Nat.le_refl _
      | cons c1 rest1 => exact Nat.le_succ _
    · rw [if_neg g8]
      by_cases g9 : c &&& 16 = 0
      · rw [if_pos g9]
        rcases rest with _ | ⟨c1, _ | ⟨c2, rest2⟩⟩ <;>
          (simp only [List.length_cons, List.length_nil]; try omega)
      · rw [if_neg g9]
        rcases rest with _ | ⟨c1, _ | ⟨c2, _ | ⟨c3, rest3⟩⟩⟩ <;>
          (simp only [List.length_cons, List.length_nil]; try omega)
  · rw [if_neg g7]

theorem dumpF_ge (fuel : Nat) : ∀ (fuel' : Nat) (s : List Nat), s.length ≤ fuel →
    s.length ≤ fuel' → dumpJsonStringF fuel s = dumpJsonStringF fuel' s := by
  induction fuel with
  | zero =>
    intro fuel' s h _
    have : s = [] := List.eq_nil_of_length_eq_zero (by omega)
    subst this
    cases fuel' <;> rfl
  | succ fuel ih =>
    intro fuel' s h h'
    cases s with
    | nil => cases fuel' <;> rfl
    | cons c rest =>
      simp only [List.length_cons] at h h'
      obtain ⟨f', rfl⟩ : ∃ f, fuel' = f + 1 := ⟨fuel' - 1, by omega⟩
      show (dumpStep c rest).1 ++ dumpJsonStringF fuel (dumpStep c rest).2 =
        (dumpStep c rest).1 ++ dumpJsonStringF f' (dumpStep c rest).2
      have hlen := dumpStep_len c rest
      rw [ih f' (dumpStep c rest).2 (by omega) (by omega)]

theorem dumpJsonString_cons (c : Nat) (rest : List Nat) :
    dumpJsonString (c :: rest) =
      (dumpStep c rest).1 ++ dumpJsonString (dumpStep c rest).2 := by
  show dumpJsonStringF (rest.length + 1) (c :: rest) = _
  show (dumpStep c rest).1 ++ dumpJsonStringF rest.length (dumpStep c rest).2 = _
  rw [dumpF_ge rest.length (dumpStep c rest).2.length (dumpStep c rest).2
    (dumpStep_len c rest) (le_refl _)]
  rfl

/-- `dumpJsonString` on a two-byte sequence emits the `\uXXXX` escape of the decoded code
point. -/
theorem dump_two {u : Nat} (h1 : 0x80 ≤ u) (h2 : u ≤ 0x7FF) (rest : List Nat) :
    dumpJsonString (encodeUtf8 u ++ rest) = toHex4 u ++ dumpJsonString rest := by
  rw [encodeUtf8_two h1 h2]
  have hh : u / 64 < 32 := by omega
  have hl : u % 64 < 64 := by omega
  simp only [List.cons_append, List.nil_append]
  rw [dumpJsonString_cons]
  have hstep : dumpStep (192 + u / 64) ((128 + u % 64) :: rest) = (toHex4 u, rest) := by
    unfold dumpStep
    rw [if_neg (by simp only [Bool.or_eq_true, decide_eq_true_eq]; omega), if_neg (by omega),
      if_neg (by omega), if_neg (by omega), if_neg (by omega), if_neg (by omega),
      if_pos (by omega), if_pos (and32_c0 _ hh)]
    dsimp only
    have hdec : (192 + u / 64 &&& 0x1F) <<< 6 ||| (128 + u % 64 &&& 0x3F) = u := by
      rw [and31_c0 _ hh, and63_80 _ hl, shl_eq]
      rw [or_mul_add (by omega)]
      omega
    rw [hdec]
    unfold utf8EscBytes
    rw [if_neg (by omega)]
    rfl
  rw [hstep]

/-- `dumpJsonString` on a three-byte sequence emits the `\uXXXX` escape of the decoded code
point. -/
theorem dump_three {u : Nat} (h1 : 0x800 ≤ u) (h2 : u ≤ 0xFFFF) (rest : List Nat) :
    dumpJsonString (encodeUtf8 u ++ rest) = toHex4 u ++ dumpJsonString rest := by
  rw [encodeUtf8_three h1 h2]
  have hh : u / 4096 < 16 := by omega
  have hm : u / 64 % 64 < 64 := by omega
  have hl : u % 64 < 64 := by omega
  simp only [List.cons_append, List.nil_append]
  rw [dumpJsonString_cons]
  have hstep : dumpStep (224 + u / 4096) ((128 + u / 64 % 64) :: (128 + u % 64) :: rest) =
      (toHex4 u, rest) := by
    unfold dumpStep
    rw [if_neg (by simp only [Bool.or_eq_true, decide_eq_true_eq]; omega), if_neg (by omega),
      if_neg (by omega), if_neg (by omega), if_neg (by omega), if_neg (by omega),
      if_pos (by omega), if_neg (by rw [and32_e0 _ hh]; omega), if_pos (and16_e0 _ hh)]
    dsimp only
    have hdec : (224 + u / 4096 &&& 0xF) <<< 12 ||| (128 + u / 64 % 64 &&& 0x3F) <<< 6 |||
        (128 + u % 64 &&& 0x3F) = u := by
      rw [and15_e0 _ hh, and63_80 _ hm, and63_80 _ hl, shl_eq, shl_eq]
      rw [show (2 : Nat) ^ 12 * (u / 4096) ||| 2 ^ 6 * (u / 64 % 64) =
          2 ^ 12 * (u / 4096) + 2 ^ 6 * (u / 64 % 64) from or_mul_add (by omega) _]
      rw [show (2 : Nat) ^ 12 * (u / 4096) + 2 ^ 6 * (u / 64 % 64) =
          2 ^ 6 * (2 ^ 6 * (u / 4096) + u / 64 % 64) by ring]
      rw [or_mul_add (by omega)]
      omega
    rw [hdec]
    unfold utf8EscBytes
    rw [if_neg (by omega)]
    rfl
  rw [hstep]

theorem parseHex4_ok (c1 c2 c3 c4 v1 v2 v3 v4 : Nat) (rest : List Nat)
    (h1 : hexDigitVal c1 = some v1) (h2 : hexDigitVal c2 = some v2)
    (h3 : hexDigitVal c3 = some v3) (h4 : hexDigitVal c4 = some v4) :
    parseHex4 (c1 :: c2 :: c3 :: c4 :: rest) =
      .ok (((v1 <<< 4 ||| v2) <<< 4 ||| v3) <<< 4 ||| v4, rest) := by
  simp [parseHex4, parseHex4Step, h1, h2, h3, h4]

theorem hex_reassemble4 {u : Nat} (hu : u < 65536) :
    (((u >>> 12 &&& 0xF) <<< 4 ||| (u >>> 8 &&& 0xF)) <<< 4 ||| (u >>> 4 &&& 0xF)) <<< 4 |||
      (u &&& 0xF) = u := by
  rw [and15, and15, and15, and15, shr_eq, shr_eq, shr_eq]
  norm_num
  rw [show (u / 4096 % 16) <<< 4 = 2 ^ 4 * (u / 4096 % 16) from shl_eq _ 4]
  rw [or_mul_add (by omega)]
  rw [show (2 ^ 4 * (u / 4096 % 16) + u / 256 % 16) <<< 4 =
    2 ^ 4 * (2 ^ 4 * (u / 4096 % 16) + u / 256 % 16) from shl_eq _ 4]
  rw [or_mul_add (by omega)]
  rw [show (2 ^ 4 * (2 ^ 4 * (u / 4096 % 16) + u / 256 % 16) + u / 16 % 16) <<< 4 =
    2 ^ 4 * (2 ^ 4 * (2 ^ 4 * (u / 4096 % 16) + u / 256 % 16) + u / 16 % 16) from shl_eq _ 4]
  rw [or_mul_add (by omega)]
  omega

theorem parseEscape_hex {u : Nat} (hu : u < 65536) (hns : ¬(0xD800 ≤ u ∧ u ≤ 0xDBFF))
    (rest : List Nat) :
    parseEscape (117 :: hexNibble (u >>> 12 &&& 0xF) :: hexNibble (u >>> 8 &&& 0xF) ::
      hexNibble (u >>> 4 &&& 0xF) :: hexNibble (u &&& 0xF) :: rest) =
      .ok (encodeUtf8 u, rest) := by
  have hb : ∀ k, u >>> k &&& 0xF < 16 := by
    intro k
    rw [and15]
    omega
  have hb0 : u &&& 0xF < 16 := by
    rw [and15]
    omega
  have hph := parseHex4_ok _ _ _ _ _ _ _ _ rest
    (hexDigitVal_hexNibble _ (hb 12)) (hexDigitVal_hexNibble _ (hb 8))
    (hexDigitVal_hexNibble _ (hb 4)) (hexDigitVal_hexNibble _ hb0)
  have hsur : (decide (0xD800 ≤ u) && decide (u ≤ 0xDBFF)) = false := by
    by_cases hA : 0xD800 ≤ u
    · have hB : ¬(u ≤ 0xDBFF) := fun hB => hns ⟨hA, hB⟩
      simp [hB]
    · simp [hA]
  simp [parseEscape, hph, hex_reassemble4 hu, hsur]

/-! One-character steps of `parseStringF` -/

theorem parseStringF_esc {f : Nat} {tail out s2 bs rest2 : List Nat}
    (hesc : parseEscape tail = .ok (out, s2))
    (hrec : parseStringF f s2 = .ok (bs, rest2)) :
    parseStringF (f + 1) (92 :: tail) = .ok (out ++ bs, rest2) := by
  simp only [parseStringF]
  rw [if_neg (by decide), if_pos trivial, hesc]
  dsimp only
  rw [hrec]

theorem parseStringF_chr {f : Nat} {c : Nat} {tail bs rest2 : List Nat}
    (h1 : 0x20 ≤ c) (h2 : c ≤ 0x7F) (h34 : c ≠ 34) (h92 : c ≠ 92)
    (hrec : parseStringF f tail = .ok (bs, rest2)) :
    parseStringF (f + 1) (c :: tail) = .ok (c :: bs, rest2) := by
  simp only [parseStringF]
  rw [if_neg h34, if_neg h92, if_neg (by omega)]
  have hutf : parseUtf8 (c :: tail) = .ok ([c], tail) := by
    unfold parseUtf8
    dsimp only
    rw [if_pos h2]
  rw [hutf]
  dsimp only
  rw [hrec]
  rfl

theorem parseStringF_hex {f : Nat} {u : Nat} (hu : u < 65536)
    (hns : ¬(0xD800 ≤ u ∧ u ≤ 0xDBFF)) {tail bs rest2 : List Nat}
    (hrec : parseStringF f tail = .ok (bs, rest2)) :
    parseStringF (f + 1) (toHex4 u ++ tail) = .ok (encodeUtf8 u ++ bs, rest2) := by
  rw [show toHex4 u ++ tail = 92 :: 117 :: hexNibble (u >>> 12 &&& 0xF) ::
    hexNibble (u >>> 8 &&& 0xF) :: hexNibble (u >>> 4 &&& 0xF) :: hexNibble (u &&& 0xF) ::
    tail from rfl]
  exact parseStringF_esc (parseEscape_hex hu hns tail) hrec

theorem dumpStep_plain {c : Nat} (h1 : 0x20 ≤ c) (h2 : c ≤ 0x7F) (h34 : c ≠ 34)
    (h92 : c ≠ 92) (rest : List Nat) : dumpStep c rest = ([c], rest) := by
  unfold dumpStep
  rw [if_neg (by simp only [Bool.or_eq_true, decide_eq_true_eq]; omega), if_neg (by omega),
    if_neg (by omega), if_neg (by omega), if_neg (by omega), if_neg (by omega),
    if_neg (by omega)]

/-- The string round trip: parsing the serialized form of a `GoodStr` string (plus closing
quote) recovers it exactly. -/
theorem parseStringF_dump {s : List Nat} (hs : GoodStr s) : ∀ (rest : List Nat) (fuel : Nat),
    (dumpJsonString s).length < fuel →
    parseStringF fuel (dumpJsonString s ++ 34 :: rest) = .ok (s, rest) := by
  induction hs with
  | nil =>
    intro rest fuel hf
    obtain ⟨f, rfl⟩ : ∃ f, fuel = f + 1 := ⟨fuel - 1, by omega⟩
    rfl
  | ascii c rest' h1 h2 hg ih =>
    intro rest fuel hf
    by_cases hq : c = 34 ∨ c = 92
    · have hstep : dumpStep c rest' = ([92, c], rest') := by
        rcases hq with h | h <;> subst h <;> rfl
      rw [dumpJsonString_cons, hstep] at hf ⊢
      dsimp only at hf ⊢
      simp only [List.length_append, List.length_cons, List.length_nil] at hf
      obtain ⟨f, rfl⟩ : ∃ f, fuel = f + 1 := ⟨fuel - 1, by omega⟩
      simp only [List.cons_append, List.nil_append, List.append_assoc]
      have hesc : parseEscape (c :: (dumpJsonString rest' ++ 34 :: rest)) =
          .ok ([c], dumpJsonString rest' ++ 34 :: rest) := by
        rcases hq with h | h <;> subst h <;> rfl
      exact parseStringF_esc hesc (ih rest f (by omega))
    · have hstep := dumpStep_plain h1 h2 (fun h => hq (Or.inl h)) (fun h => hq (Or.inr h)) rest'
      rw [dumpJsonString_cons, hstep] at hf ⊢
      dsimp only at hf ⊢
      simp only [List.length_append, List.length_cons, List.length_nil] at hf
      obtain ⟨f, rfl⟩ : ∃ f, fuel = f + 1 := ⟨fuel - 1, by omega⟩
      simp only [List.cons_append, List.nil_append, List.append_assoc]
      exact parseStringF_chr h1 h2 (fun h => hq (Or.inl h)) (fun h => hq (Or.inr h))
        (ih rest f (by omega))
  | ctrl c rest' hc hg ih =>
    intro rest fuel hf
    have hstep : ∃ e, dumpStep c rest' = ([92, e], rest') ∧
        parseEscape (e :: (dumpJsonString rest' ++ 34 :: rest)) =
          .ok ([c], dumpJsonString rest' ++ 34 :: rest) := by
      rcases hc with h | h | h | h | h <;> subst h
      · exact ⟨98, rfl, rfl⟩
      · exact ⟨116, rfl, rfl⟩
      · exact ⟨110, rfl, rfl⟩
      · exact ⟨102, rfl, rfl⟩
      · exact ⟨114, rfl, rfl⟩
    obtain ⟨e, hstep, hesc⟩ := hstep
    rw [dumpJsonString_cons, hstep] at hf ⊢
    dsimp only at hf ⊢
    simp only [List.length_append, List.length_cons, List.length_nil] at hf
    obtain ⟨f, rfl⟩ : ∃ f, fuel = f + 1 := ⟨fuel - 1, by omega⟩
    simp only [List.cons_append, List.nil_append, List.append_assoc]
    exact parseStringF_esc hesc (ih rest f (by omega))
  | two u rest' h1 h2 hg ih =>
    intro rest fuel hf
    rw [dump_two h1 h2 rest'] at hf ⊢
    simp only [List.length_append, show (toHex4 u).length = 6 from rfl] at hf
    obtain ⟨f, rfl⟩ : ∃ f, fuel = f + 1 := ⟨fuel - 1, by omega⟩
    rw [List.append_assoc]
    exact parseStringF_hex (by omega) (by omega) (ih rest f (by omega))
  | three u rest' h1 h2 hns hg ih =>
    intro rest fuel hf
    rw [dump_three h1 h2 rest'] at hf ⊢
    simp only [List.length_append, show (toHex4 u).length = 6 from rfl] at hf
    obtain ⟨f, rfl⟩ : ∃ f, fuel = f + 1 := ⟨fuel - 1, by omega⟩
    rw [List.append_assoc]
    refine parseStringF_hex (by omega) ?_ (ih rest f (by omega))
    intro ⟨hA, hB⟩
    exact hns ⟨hA, by omega⟩

theorem skipSpace_nospace {c : Nat} (h : isSpaceB c = false) (t : List Nat) :
    skipSpace (c :: t) = c :: t := by
  simp [skipSpace, List.dropWhile_cons, h]

theorem parseString_dump {s : List Nat} (hs : GoodStr s) (rest : List Nat) :
    parseString (dumpJsonString s ++ 34 :: rest) = .ok (s, rest) := by
  unfold parseString
  refine parseStringF_dump hs rest _ ?_
  simp only [List.length_append, List.length_cons]
  omega

theorem parseKeyWithColon_dump {k : List Nat} (hk : GoodStr k) (tail : List Nat) :
    parseKeyWithColon (dumpJsonString k ++ 34 :: 58 :: tail) = .ok (k, tail) := by
  unfold parseKeyWithColon
  rw [parseString_dump hk (58 :: tail)]
  dsimp only
  rw [skipSpace_nospace (show isSpaceB 58 = false from rfl) tail]

/-- The first byte of any serialized `GoodNode`: never whitespace and never `]`, so the
`beginArray` dispatch always enters the element branch. -/
theorem serNode_shape {N : JsonNode} (h : GoodNode N) :
    ∃ c t, serNode N = c :: t ∧ isSpaceB c = false ∧ c ≠ 93 := by
  cases h with
  | null => exact ⟨110, [117, 108, 108], rfl, rfl, by omega⟩
  | bool b =>
    cases b
    · exact ⟨102, [97, 108, 115, 101], rfl, rfl, by omega⟩
    · exact ⟨116, [114, 117, 101], rfl, rfl, by omega⟩
  | int i h1 h2 =>
    by_cases hneg : i < 0
    · refine ⟨45, dumpUint64 ((-i).toNat % 2 ^ 64), ?_, rfl, by omega⟩
      show dumpInt64 i = _
      rw [dumpInt64, if_pos hneg]
    · have h0 : 0 ≤ i := by omega
      have hu : i.toNat < 2 ^ 64 := by omega
      obtain ⟨c, t, hct, hc1, hc2⟩ := IntPart_head (dumpUint64_spec hu).1
      refine ⟨c, t, ?_, by simp [isSpaceB]; omega, by omega⟩
      show dumpInt64 i = _
      rw [dumpInt64, if_neg hneg, hct]
  | uint u hu =>
    obtain ⟨c, t, hct, hc1, hc2⟩ := IntPart_head (dumpUint64_spec hu).1
    exact ⟨c, t, hct, by simp [isSpaceB]; omega, by omega⟩
  | str s hs => exact ⟨34, dumpJsonString s ++ [34], by rfl, rfl, by omega⟩
  | arr a ha => exact ⟨91, serArrElems a ++ [93], by rfl, rfl, by omega⟩
  | obj o h1 h2 h3 => exact ⟨123, serObjElems o ++ [125], by rfl, rfl, by omega⟩

theorem popCont_mono {v : JsonNode} {ctxs : List Frame} {rest : List Nat} {fuel fuel' : Nat}
    {r : LoopResult} (h : popCont v ctxs rest fuel = some r) (hle : fuel ≤ fuel') :
    popCont v ctxs rest fuel' = some r := by
  cases ctxs with
  | nil => exact h
  | cons f fs =>
    dsimp only [popCont] at h ⊢
    exact parseLoop_mono fuel h hle

theorem parseLoop_num {c : Nat} {t : List Nat} {v : JsonNode} {rest2 : List Nat}
    {ctxs : List Frame} {fuel : Nat} {r : LoopResult}
    (hc : 48 ≤ c ∧ c ≤ 57 ∨ c = 45)
    (hn : parseNumber (c :: t) = .ok (v, rest2))
    (hpc : popCont v ctxs rest2 fuel = some r) (focus : JsonNode) :
    parseLoop (fuel + 1) focus ctxs (c :: t) = some r := by
  simp only [parseLoop]
  rw [skipSpace_nospace (by simp [isSpaceB]; omega) t]
  dsimp only
  rw [if_neg (by simp only [Bool.or_eq_true, decide_eq_true_eq]; omega), if_neg (by omega),
    if_neg (by omega), if_neg (by omega), if_neg (by omega), if_neg (by omega),
    if_neg (by omega),
    if_pos (by
      simp only [Bool.or_eq_true, decide_eq_true_eq, isDigitB, Bool.and_eq_true]
      rcases hc with ⟨ha, hb⟩ | h45
      · exact Or.inl ⟨by simpa using ha, by simpa using hb⟩
      · exact Or.inr h45)]
  rw [hn]
  dsimp only
  cases ctxs with
  | nil => exact hpc
  | cons f fs => exact hpc

theorem parseLoop_str {inp sres rest2 : List Nat} {ctxs : List Frame} {fuel : Nat}
    {r : LoopResult} (hps : parseString inp = .ok (sres, rest2))
    (hpc : popCont (.str sres) ctxs rest2 fuel = some r) (focus : JsonNode) :
    parseLoop (fuel + 1) focus ctxs (34 :: inp) = some r := by
  simp only [parseLoop]
  rw [skipSpace_nospace (by decide) inp]
  dsimp only
  rw [if_neg (by decide), if_pos rfl, hps]
  dsimp only
  cases ctxs with
  | nil => exact hpc
  | cons f fs => exact hpc

theorem serArrElems_cons (x : JsonNode) (xs : List JsonNode) :
    serArrElems (x :: xs) = serNode x ++ serArrTail xs := by
  cases xs with
  | nil => simp [serArrElems, serArrTail]
  | cons y ys => rfl

theorem serObjElems_cons (k : List Nat) (v : JsonNode) (es : JsonObj) :
    serObjElems ((k, v) :: es) =
      34 :: (dumpJsonString k ++ 34 :: 58 :: (serNode v ++ serObjTail es)) := by
  cases es with
  | nil => simp [serObjElems, serObjTail]
  | cons e es' => simp [serObjElems, serObjTail]

theorem objInsert_append {k : List Nat} {v : JsonNode} {o : JsonObj}
    (h : ∀ p ∈ o, keyLt p.1 k = true) : objInsert k v o = o ++ [(k, v)] := by
  induction o with
  | nil => rfl
  | cons p o ih =>
    obtain ⟨k', v'⟩ := p
    have hk' : keyLt k' k = true := h (k', v') (List.mem_cons_self _ _)
    have hnot : keyLt k k' = false := by
      cases hkk : keyLt k k' with
      | false => rfl
      | true =>
        have := keyLt_trans hkk hk'
        rw [keyLt_irrefl] at this
        exact absurd this (by simp)
    have hne : k' ≠ k := by
      intro he
      subst he
      rw [keyLt_irrefl] at hk'
      simp at hk'
    unfold objInsert
    rw [if_neg (by simp [hnot]), if_neg hne,
      ih (fun p hp => h p (List.mem_cons_of_mem _ hp))]
    simp

theorem objFind_none {k : List Nat} {o : JsonObj} (h : ∀ p ∈ o, keyLt p.1 k = true) :
    objFind k o = none := by
  induction o with
  | nil => rfl
  | cons p o ih =>
    obtain ⟨k', v'⟩ := p
    have hk' : keyLt k' k = true := h (k', v') (List.mem_cons_self _ _)
    have hne : k' ≠ k := by
      intro he
      subst he
      rw [keyLt_irrefl] at hk'
      simp at hk'
    unfold objFind
    rw [if_neg hne, ih (fun p hp => h p (List.mem_cons_of_mem _ hp))]

theorem objErase_id {k : List Nat} {o : JsonObj} (h : ∀ p ∈ o, keyLt p.1 k = true) :
    objErase k o = o := by
  induction o with
  | nil => rfl
  | cons p o ih =>
    obtain ⟨k', v'⟩ := p
    have hk' : keyLt k' k = true := h (k', v') (List.mem_cons_self _ _)
    have hne : k' ≠ k := by
      intro he
      subst he
      rw [keyLt_irrefl] at hk'
      simp at hk'
    unfold objErase
    rw [if_neg hne, ih (fun p hp => h p (List.mem_cons_of_mem _ hp))]

theorem parseLoop_lit {c : Nat} {t rest2 : List Nat} {v : JsonNode} {ctxs : List Frame}
    {fuel : Nat} {r : LoopResult} (hc : c = 110 ∨ c = 116 ∨ c = 102)
    (hl : parseLiteral (c :: t) = .ok (v, rest2))
    (hpc : popCont v ctxs rest2 fuel = some r) (focus : JsonNode) :
    parseLoop (fuel + 1) focus ctxs (c :: t) = some r := by
  simp only [parseLoop]
  rw [skipSpace_nospace (by rcases hc with h | h | h <;> subst h <;> rfl) t]
  dsimp only
  rw [if_pos (by rcases hc with h | h | h <;> subst h <;> rfl), hl]
  dsimp only
  cases ctxs with
  | nil => exact hpc
  | cons f fs => exact hpc

theorem parseLoop_arrEmpty {rest : List Nat} {ctxs : List Frame} {fuel : Nat} {r : LoopResult}
    (hpc : popCont (.arr []) ctxs rest fuel = some r) (focus : JsonNode) :
    parseLoop (fuel + 1) focus ctxs (91 :: 93 :: rest) = some r := by
  simp only [parseLoop]
  rw [skipSpace_nospace (by decide) (93 :: rest)]
  dsimp only
  rw [if_neg (by decide), if_neg (by decide), if_pos rfl]
  rw [skipSpace_nospace (by decide) rest]
  dsimp only
  rw [if_pos rfl]
  cases ctxs with
  | nil => exact hpc
  | cons f fs => exact hpc

theorem parseLoop_arrBegin {c0 : Nat} {t0 : List Nat} {ctxs : List Frame} {fuel : Nat}
    {r : LoopResult} (hs0 : isSpaceB c0 = false) (hne : c0 ≠ 93)
    (hcont : parseLoop fuel .null (.arrF [] :: ctxs) (c0 :: t0) = some r)
    (focus : JsonNode) :
    parseLoop (fuel + 1) focus ctxs (91 :: c0 :: t0) = some r := by
  simp only [parseLoop]
  rw [skipSpace_nospace (by decide) (c0 :: t0)]
  dsimp only
  rw [if_neg (by decide), if_neg (by decide), if_pos rfl]
  rw [skipSpace_nospace hs0 t0]
  dsimp only
  rw [if_neg hne]
  exact hcont

theorem parseLoop_arrClose {A : List JsonNode} {rest : List Nat} {ctxs : List Frame}
    {fuel : Nat} {r : LoopResult} (hpc : popCont (.arr A) ctxs rest fuel = some r) :
    parseLoop (fuel + 1) (.arr A) ctxs (93 :: rest) = some r := by
  simp only [parseLoop]
  rw [skipSpace_nospace (by decide) rest]
  dsimp only
  rw [if_neg (by decide), if_neg (by decide), if_neg (by decide), if_pos rfl]
  cases ctxs with
  | nil => exact hpc
  | cons f fs => exact hpc

theorem parseLoop_arrComma {A : List JsonNode} {tail : List Nat} {ctxs : List Frame}
    {fuel : Nat} {r : LoopResult}
    (hcont : parseLoop fuel .null (.arrF A :: ctxs) tail = some r) :
    parseLoop (fuel + 1) (.arr A) ctxs (44 :: tail) = some r := by
  simp only [parseLoop]
  rw [skipSpace_nospace (by decide) tail]
  dsimp only
  rw [if_neg (by decide), if_neg (by decide), if_neg (by decide), if_neg (by decide),
    if_neg (by decide), if_neg (by decide), if_pos rfl]
  exact hcont

theorem parseLoop_objEmpty {rest : List Nat} {ctxs : List Frame} {fuel : Nat} {r : LoopResult}
    (hpc : popCont (.obj []) ctxs rest fuel = some r) (focus : JsonNode) :
    parseLoop (fuel + 1) focus ctxs (123 :: 125 :: rest) = some r := by
  simp only [parseLoop]
  rw [skipSpace_nospace (by decide) (125 :: rest)]
  dsimp only
  rw [if_neg (by decide), if_neg (by decide), if_neg (by decide), if_neg (by decide),
    if_pos rfl]
  rw [skipSpace_nospace (by decide) rest]
  dsimp only
  rw [if_pos rfl]
  cases ctxs with
  | nil => exact hpc
  | cons f fs => exact hpc

theorem parseLoop_objBegin {inp2 kk tail : List Nat} {ctxs : List Frame} {fuel : Nat}
    {r : LoopResult} (hk : parseKeyWithColon inp2 = .ok (kk, tail))
    (hcont : parseLoop fuel .null (.objF [] kk :: ctxs) tail = some r) (focus : JsonNode) :
    parseLoop (fuel + 1) focus ctxs (123 :: 34 :: inp2) = some r := by
  simp only [parseLoop]
  rw [skipSpace_nospace (by decide) (34 :: inp2)]
  dsimp only
  rw [if_neg (by decide), if_neg (by decide), if_neg (by decide), if_neg (by decide),
    if_pos rfl]
  rw [skipSpace_nospace (by decide) inp2]
  dsimp only
  rw [if_neg (by decide), if_pos rfl, hk]
  dsimp only
  exact hcont

theorem parseLoop_objClose {O : JsonObj} {rest : List Nat} {ctxs : List Frame} {fuel : Nat}
    {r : LoopResult} (hpc : popCont (.obj O) ctxs rest fuel = some r) :
    parseLoop (fuel + 1) (.obj O) ctxs (125 :: rest) = some r := by
  simp only [parseLoop]
  rw [skipSpace_nospace (by decide) rest]
  dsimp only
  rw [if_neg (by decide), if_neg (by decide), if_neg (by decide), if_neg (by decide),
    if_neg (by decide), if_pos rfl]
  cases ctxs with
  | nil => exact hpc
  | cons f fs => exact hpc

theorem parseLoop_objComma {O : JsonObj} {inp2 kk tail : List Nat} {ctxs : List Frame}
    {fuel : Nat} {r : LoopResult} (hk : parseKeyWithColon inp2 = .ok (kk, tail))
    (hfind : objFind kk O = none) (hers : objErase kk O = O)
    (hcont : parseLoop fuel .null (.objF O kk :: ctxs) tail = some r) :
    parseLoop (fuel + 1) (.obj O) ctxs (44 :: 34 :: inp2) = some r := by
  simp only [parseLoop]
  rw [skipSpace_nospace (by decide) (34 :: inp2)]
  dsimp only
  rw [if_neg (by decide), if_neg (by decide), if_neg (by decide), if_neg (by decide),
    if_neg (by decide), if_neg (by decide), if_pos rfl]
  rw [skipSpace_nospace (by decide) inp2]
  dsimp only
  rw [if_pos rfl, hk]
  dsimp only
  rw [hfind, hers]
  exact hcont

/-! The serializer-parser simulation -/

mutual

theorem simVal (N : JsonNode) (hN : GoodNode N) :
    ∀ (focus : JsonNode) (ctxs : List Frame) (rest : List Nat) (fuel : Nat) (r : LoopResult),
    SepRest rest →
    popCont (canonN N) ctxs rest fuel = some r →
    parseLoop (fuel + (serNode N).length) focus ctxs (serNode N ++ rest) = some r :=
  match N, hN with
  | .double d, hN => nomatch hN
  | .null, _ => by
    intro focus ctxs rest fuel r hsep hpc
    rw [show serNode JsonNode.null ++ rest = 110 :: ([117, 108, 108] ++ rest) from rfl,
      show fuel + (serNode JsonNode.null).length = (fuel + 3) + 1 from rfl]
    refine parseLoop_lit (Or.inl rfl) ?_ (popCont_mono hpc (by omega)) focus
    rfl
  | .bool b, _ => by
    intro focus ctxs rest fuel r hsep hpc
    cases b
    · rw [show serNode (JsonNode.bool false) ++ rest = 102 :: ([97, 108, 115, 101] ++ rest)
        from rfl,
        show fuel + (serNode (JsonNode.bool false)).length = (fuel + 4) + 1 from rfl]
      refine parseLoop_lit (Or.inr (Or.inr rfl)) ?_ (popCont_mono hpc (by omega)) focus
      rfl
    · rw [show serNode (JsonNode.bool true) ++ rest = 116 :: ([114, 117, 101] ++ rest)
        from rfl,
        show fuel + (serNode (JsonNode.bool true)).length = (fuel + 3) + 1 from rfl]
      refine parseLoop_lit (Or.inr (Or.inl rfl)) ?_ (popCont_mono hpc (by omega)) focus
      rfl
  | .int i, .int _ h1 h2 => by
    intro focus ctxs rest fuel r hsep hpc
    have hnum := parseNumber_dumpInt64 h1 h2 hsep
    have hL : 1 ≤ (dumpInt64 i).length := by
      by_cases hneg : i < 0
      · rw [dumpInt64, if_pos hneg]
        simp
      · rw [dumpInt64, if_neg hneg]
        obtain ⟨c, t, hct, -, -⟩ := IntPart_head (dumpUint64_spec
          (show i.toNat < 2 ^ 64 by omega)).1
        rw [hct]
        simp
    have hshape : ∃ c t, dumpInt64 i = c :: t ∧ (48 ≤ c ∧ c ≤ 57 ∨ c = 45) := by
      by_cases hneg : i < 0
      · exact ⟨45, _, by rw [dumpInt64, if_pos hneg], Or.inr rfl⟩
      · obtain ⟨c, t, hct, hc1, hc2⟩ := IntPart_head (dumpUint64_spec
          (show i.toNat < 2 ^ 64 by omega)).1
        exact ⟨c, t, by rw [dumpInt64, if_neg hneg, hct], Or.inl ⟨hc1, hc2⟩⟩
    obtain ⟨c, t, hct, hc⟩ := hshape
    rw [show fuel + (serNode (JsonNode.int i)).length =
      (fuel + ((dumpInt64 i).length - 1)) + 1 by show fuel + (dumpInt64 i).length = _; omega]
    rw [show serNode (JsonNode.int i) ++ rest = c :: (t ++ rest) by
      show dumpInt64 i ++ rest = _
      rw [hct, List.cons_append]]
    refine parseLoop_num hc ?_ (popCont_mono hpc (by omega)) focus
    rw [← List.cons_append, ← hct]
    exact hnum
  | .uint u, .uint _ hu => by
    intro focus ctxs rest fuel r hsep hpc
    have hnum := parseNumber_dumpUint64 hu hsep
    obtain ⟨c, t, hct, hc1, hc2⟩ := IntPart_head (dumpUint64_spec hu).1
    rw [show fuel + (serNode (JsonNode.uint u)).length =
      (fuel + ((dumpUint64 u).length - 1)) + 1 by
        show fuel + (dumpUint64 u).length = _
        rw [hct]
        simp
        omega]
    rw [show serNode (JsonNode.uint u) ++ rest = c :: (t ++ rest) by
      show dumpUint64 u ++ rest = _
      rw [hct, List.cons_append]]
    refine parseLoop_num (Or.inl ⟨hc1, hc2⟩) ?_ (popCont_mono hpc (by omega)) focus
    rw [← List.cons_append, ← hct]
    exact hnum
  | .str s, .str _ hs => by
    intro focus ctxs rest fuel r hsep hpc
    rw [show serNode (JsonNode.str s) ++ rest = 34 :: (dumpJsonString s ++ 34 :: rest) by
      show (34 :: dumpJsonString s) ++ [34] ++ rest = _
      simp]
    rw [show fuel + (serNode (JsonNode.str s)).length =
      (fuel + ((dumpJsonString s).length + 1)) + 1 by
        show fuel + ((34 :: dumpJsonString s) ++ [34]).length = _
        simp
        omega]
    exact parseLoop_str (parseString_dump hs rest) (popCont_mono hpc (by omega)) focus
  | .arr [], _ => by
      intro focus ctxs rest fuel r hsep hpc
      rw [show serNode (JsonNode.arr []) ++ rest = 91 :: 93 :: rest from rfl,
        show fuel + (serNode (JsonNode.arr [])).length = (fuel + 1) + 1 from rfl]
      exact parseLoop_arrEmpty (popCont_mono hpc (by omega)) focus
  | .arr (x :: xs), .arr _ ha => by
      intro focus ctxs rest fuel r hsep hpc
      obtain ⟨c0, t0, hser, hs0, hne93⟩ := serNode_shape (ha x (List.mem_cons_self _ _))
      rw [show serNode (JsonNode.arr (x :: xs)) ++ rest =
        91 :: (c0 :: (t0 ++ serArrTail xs ++ 93 :: rest)) by
          show (91 :: serArrElems (x :: xs)) ++ [93] ++ rest = _
          rw [serArrElems_cons, hser]
          simp]
      rw [show fuel + (serNode (JsonNode.arr (x :: xs))).length =
        ((fuel + ((serNode x ++ serArrTail xs).length + 1)) + 1) by
          show fuel + ((91 :: serArrElems (x :: xs)) ++ [93]).length = _
          rw [serArrElems_cons]
          simp
          omega]
      refine parseLoop_arrBegin hs0 hne93 ?_ focus
      rw [show c0 :: (t0 ++ serArrTail xs ++ 93 :: rest) =
        (serNode x ++ serArrTail xs) ++ 93 :: rest by rw [hser]; simp]
      exact simArr x xs (ha x (List.mem_cons_self _ _))
        (fun y hy => ha y (List.mem_cons_of_mem _ hy)) [] ctxs rest fuel r hsep hpc
  | .obj [], _ => by
      intro focus ctxs rest fuel r hsep hpc
      rw [show serNode (JsonNode.obj []) ++ rest = 123 :: 125 :: rest from rfl,
        show fuel + (serNode (JsonNode.obj [])).length = (fuel + 1) + 1 from rfl]
      exact parseLoop_objEmpty (popCont_mono hpc (by omega)) focus
  | .obj ((k, v) :: es), .obj _ h1 h2 h3 => by
      intro focus ctxs rest fuel r hsep hpc
      have hkes : ∀ q ∈ es, keyLt k q.1 = true := by
        have := (objSortedB_iff_pairwise _).mp h1
        rw [List.pairwise_cons] at this
        exact fun q hq => this.1 q hq
      have hses : objSortedB es = true := by
        have := (objSortedB_iff_pairwise _).mp h1
        rw [List.pairwise_cons] at this
        exact (objSortedB_iff_pairwise _).mpr this.2
      rw [show serNode (JsonNode.obj ((k, v) :: es)) ++ rest =
        123 :: 34 :: (dumpJsonString k ++ 34 :: 58 ::
          ((serNode v ++ serObjTail es) ++ 125 :: rest)) by
          show (123 :: serObjElems ((k, v) :: es)) ++ [125] ++ rest = _
          rw [serObjElems_cons]
          simp]
      rw [show fuel + (serNode (JsonNode.obj ((k, v) :: es))).length =
        ((fuel + (dumpJsonString k).length + 3 +
          ((serNode v ++ serObjTail es).length + 1)) + 1) by
          show fuel + ((123 :: serObjElems ((k, v) :: es)) ++ [125]).length = _
          rw [serObjElems_cons]
          simp
          omega]
      refine parseLoop_objBegin (parseKeyWithColon_dump (h2 (k, v) (List.mem_cons_self _ _))
        ((serNode v ++ serObjTail es) ++ 125 :: rest)) ?_ focus
      refine simObj v es (h3 (k, v) (List.mem_cons_self _ _))
        (fun p hp => h2 p (List.mem_cons_of_mem _ hp))
        (fun p hp => h3 p (List.mem_cons_of_mem _ hp)) k [] ctxs rest
        (fuel + (dumpJsonString k).length + 3) r (by simp) hkes hses hsep ?_
      exact popCont_mono hpc (by omega)
termination_by sizeOf N
decreasing_by
  all_goals simp
  all_goals omega

theorem simArr (x : JsonNode) (xs : List JsonNode) (hx : GoodNode x)
    (hxs : ∀ y ∈ xs, GoodNode y) :
    ∀ (before : List JsonNode) (ctxs : List Frame) (rest : List Nat) (fuel : Nat)
      (r : LoopResult),
    SepRest rest →
    popCont (.arr (before ++ canonN x :: canonList xs)) ctxs rest fuel = some r →
    parseLoop (fuel + ((serNode x ++ serArrTail xs).length + 1)) .null
      (.arrF before :: ctxs) ((serNode x ++ serArrTail xs) ++ 93 :: rest) = some r :=
  match xs, hxs with
  | [], _ => by
    intro before ctxs rest fuel r hsep hpc
    rw [List.append_assoc]
    rw [show fuel + ((serNode x ++ serArrTail []).length + 1) =
      (fuel + ((serArrTail ([] : List JsonNode)).length + 1)) + (serNode x).length by
        simp [List.length_append]
        omega]
    refine simVal x hx .null (.arrF before :: ctxs) (serArrTail [] ++ 93 :: rest)
      (fuel + ((serArrTail ([] : List JsonNode)).length + 1)) r ?_ ?_
    · intro b t hbt
      rw [show serArrTail [] ++ 93 :: rest = 93 :: rest from rfl] at hbt
      exact Or.inr (Or.inl (List.cons.injEq .. |>.mp hbt).1.symm)
    · dsimp only [popCont, serArrTail, applyFrame]
      simp only [List.length_nil, Nat.zero_add, List.nil_append]
      refine parseLoop_arrClose (popCont_mono ?_ (le_refl _))
      exact hpc
  | y :: ys, hxs => by
    intro before ctxs rest fuel r hsep hpc
    rw [List.append_assoc]
    rw [show fuel + ((serNode x ++ serArrTail (y :: ys)).length + 1) =
      (fuel + ((serArrTail (y :: ys)).length + 1)) + (serNode x).length by
        simp [List.length_append]
        omega]
    refine simVal x hx .null (.arrF before :: ctxs) (serArrTail (y :: ys) ++ 93 :: rest)
      (fuel + ((serArrTail (y :: ys)).length + 1)) r ?_ ?_
    · intro b t hbt
      rw [show serArrTail (y :: ys) ++ 93 :: rest =
        44 :: (serArrElems (y :: ys) ++ 93 :: rest) from rfl] at hbt
      exact Or.inl (List.cons.injEq .. |>.mp hbt).1.symm
    · dsimp only [popCont, applyFrame]
      rw [show serArrTail (y :: ys) ++ 93 :: rest =
        44 :: ((serNode y ++ serArrTail ys) ++ 93 :: rest) by
          show (44 :: serArrElems (y :: ys)) ++ 93 :: rest = _
          rw [serArrElems_cons]
          simp]
      rw [show fuel + ((serArrTail (y :: ys)).length + 1) =
        (fuel + ((serNode y ++ serArrTail ys).length + 1)) + 1 by
          show fuel + ((44 :: serArrElems (y :: ys)).length + 1) = _
          rw [serArrElems_cons]
          simp
          omega]
      refine parseLoop_arrComma ?_
      refine simArr y ys (hxs y (List.mem_cons_self _ _))
        (fun z hz => hxs z (List.mem_cons_of_mem _ hz)) (before ++ [canonN x]) ctxs rest
        fuel r hsep ?_
      rw [show (before ++ [canonN x]) ++ canonN y :: canonList ys =
        before ++ canonN x :: canonList (y :: ys) by simp [canonList]]
      exact hpc
termination_by sizeOf x + sizeOf xs + 1
decreasing_by
  all_goals simp
  all_goals omega

theorem simObj (v : JsonNode) (es : JsonObj) (hv : GoodNode v)
    (hks : ∀ p ∈ es, GoodStr p.1) (hvs : ∀ p ∈ es, GoodNode p.2) :
    ∀ (k : List Nat) (others : JsonObj) (ctxs : List Frame) (rest : List Nat) (fuel : Nat)
      (r : LoopResult),
    (∀ p ∈ others, keyLt p.1 k = true) →
    (∀ q ∈ es, keyLt k q.1 = true) →
    objSortedB es = true →
    SepRest rest →
    popCont (.obj (others ++ (k, canonN v) :: canonObj es)) ctxs rest fuel = some r →
    parseLoop (fuel + ((serNode v ++ serObjTail es).length + 1)) .null
      (.objF others k :: ctxs) ((serNode v ++ serObjTail es) ++ 125 :: rest) = some r :=
  match es, hks, hvs with
  | [], _, _ => by
    intro k others ctxs rest fuel r hoth hkes hses hsep hpc
    rw [List.append_assoc]
    rw [show fuel + ((serNode v ++ serObjTail []).length + 1) =
      (fuel + ((serObjTail ([] : JsonObj)).length + 1)) + (serNode v).length by
        simp [List.length_append]
        omega]
    refine simVal v hv .null (.objF others k :: ctxs) (serObjTail [] ++ 125 :: rest)
      (fuel + ((serObjTail ([] : JsonObj)).length + 1)) r ?_ ?_
    · intro b t hbt
      rw [show serObjTail [] ++ 125 :: rest = 125 :: rest from rfl] at hbt
      exact Or.inr (Or.inr (List.cons.injEq .. |>.mp hbt).1.symm)
    · have hins : objInsert k (canonN v) others = others ++ [(k, canonN v)] :=
        objInsert_append hoth
      dsimp only [popCont, serObjTail, applyFrame]
      rw [hins]
      simp only [List.length_nil, Nat.zero_add, List.nil_append]
      refine parseLoop_objClose (popCont_mono ?_ (le_refl _))
      exact hpc
  | (k2, v2) :: es', hks, hvs => by
    intro k others ctxs rest fuel r hoth hkes hses hsep hpc
    rw [List.append_assoc]
    rw [show fuel + ((serNode v ++ serObjTail ((k2, v2) :: es')).length + 1) =
      (fuel + ((serObjTail ((k2, v2) :: es')).length + 1)) + (serNode v).length by
        simp [List.length_append]
        omega]
    refine simVal v hv .null (.objF others k :: ctxs)
      (serObjTail ((k2, v2) :: es') ++ 125 :: rest)
      (fuel + ((serObjTail ((k2, v2) :: es')).length + 1)) r ?_ ?_
    · intro b t hbt
      rw [show serObjTail ((k2, v2) :: es') ++ 125 :: rest =
        44 :: (serObjElems ((k2, v2) :: es') ++ 125 :: rest) from rfl] at hbt
      exact Or.inl (List.cons.injEq .. |>.mp hbt).1.symm
    · have hins : objInsert k (canonN v) others = others ++ [(k, canonN v)] :=
        objInsert_append hoth
      have hk2 : keyLt k k2 = true := hkes (k2, v2) (List.mem_cons_self _ _)
      have hkes' : ∀ q ∈ es', keyLt k2 q.1 = true := by
        have := (objSortedB_iff_pairwise _).mp hses
        rw [List.pairwise_cons] at this
        exact fun q hq => this.1 q hq
      have hses' : objSortedB es' = true := by
        have := (objSortedB_iff_pairwise _).mp hses
        rw [List.pairwise_cons] at this
        exact (objSortedB_iff_pairwise _).mpr this.2
      have hoth' : ∀ p ∈ others ++ [(k, canonN v)], keyLt p.1 k2 = true := by
        intro p hp
        rcases List.mem_append.mp hp with hp | hp
        · exact keyLt_trans (hoth p hp) hk2
        · rw [List.mem_singleton] at hp
          rw [hp]
          exact hk2
      dsimp only [popCont, applyFrame]
      rw [hins]
      rw [show serObjTail ((k2, v2) :: es') ++ 125 :: rest =
        44 :: 34 :: (dumpJsonString k2 ++ 34 :: 58 ::
          ((serNode v2 ++ serObjTail es') ++ 125 :: rest)) by
          show (44 :: serObjElems ((k2, v2) :: es')) ++ 125 :: rest = _
          rw [serObjElems_cons]
          simp]
      rw [show fuel + ((serObjTail ((k2, v2) :: es')).length + 1) =
        ((fuel + (dumpJsonString k2).length + 3 +
          ((serNode v2 ++ serObjTail es').length + 1)) + 1) by
          show fuel + ((44 :: serObjElems ((k2, v2) :: es')).length + 1) = _
          rw [serObjElems_cons]
          simp
          omega]
      refine parseLoop_objComma (parseKeyWithColon_dump
        (hks (k2, v2) (List.mem_cons_self _ _))
        ((serNode v2 ++ serObjTail es') ++ 125 :: rest))
        (objFind_none hoth') (objErase_id hoth') ?_
      refine simObj v2 es' (hvs (k2, v2) (List.mem_cons_self _ _))
        (fun p hp => hks p (List.mem_cons_of_mem _ hp))
        (fun p hp => hvs p (List.mem_cons_of_mem _ hp)) k2 (others ++ [(k, canonN v)])
        ctxs rest (fuel + (dumpJsonString k2).length + 3) r hoth' hkes' hses' hsep ?_
      have hpc2 : popCont (.obj ((others ++ [(k, canonN v)]) ++
          (k2, canonN v2) :: canonObj es')) ctxs rest fuel = some r := by
        rw [show (others ++ [(k, canonN v)]) ++ (k2, canonN v2) :: canonObj es' =
          others ++ (k, canonN v) :: canonObj ((k2, v2) :: es') by simp [canonObj]]
        exact hpc
      exact popCont_mono hpc2 (by omega)
termination_by sizeOf v + sizeOf es + 1
decreasing_by
  all_goals simp
  all_goals omega

end

/-! `canonN` returns an equivalent tree -/

mutual

theorem jeq_canonN (N : JsonNode) : JEquiv (canonN N) N :=
  match N with
  | .null => .null
  | .bool b => .bool b
  | .double d => .double d
  | .int i => by
    show JEquiv (if 0 ≤ i then .uint i.toNat else .int i) (.int i)
    by_cases h : 0 ≤ i
    · rw [if_pos h]
      exact .uintInt i.toNat i (by omega)
    · rw [if_neg h]
      exact .int i
  | .uint u => .uint u
  | .str s => .str s
  | .arr a => .arr _ _ (jeq_canonList a)
  | .obj o => .obj _ _ (jeq_canonObj o)
termination_by sizeOf N
decreasing_by
  all_goals simp
  all_goals omega

theorem jeq_canonList (a : List JsonNode) : JEquivList (canonList a) a :=
  match a with
  | [] => .nil
  | x :: xs => .cons _ _ _ _ (jeq_canonN x) (jeq_canonList xs)
termination_by sizeOf a
decreasing_by
  all_goals simp
  all_goals omega

theorem jeq_canonObj (o : JsonObj) : JEquivObj (canonObj o) o :=
  match o with
  | [] => .nil
  | (k, v) :: es => .cons k _ _ _ _ (jeq_canonN v) (jeq_canonObj es)
termination_by sizeOf o
decreasing_by
  all_goals simp
  all_goals omega

end

/-- C1 (amended): the serialize-parse round trip on `GoodNode` trees: parsing the
compact serialization succeeds, consumes everything, and returns a tree `JEquiv`-equal to the
original (numeric representations compared by value). -/
theorem claim_C1_roundtrip :
    ∀ N : JsonNode, GoodNode N →
      parseCore (serNode N) true = .ok (canonN N, []) ∧ JEquiv (canonN N) N := by
  intro N hN
  refine ⟨?_, jeq_canonN N⟩
  unfold parseCore
  have hloop : parseLoop ((serNode N).length + 1) .null [] (serNode N) =
      some (.ok (canonN N) []) := by
    have hs := simVal N hN .null [] [] 1 (.ok (canonN N) [])
      (fun b t h => by simp at h) rfl
    rw [List.append_nil] at hs
    rw [show (serNode N).length + 1 = 1 + (serNode N).length by omega]
    exact hs
  rw [hloop]
  rfl

theorem claim_C1_witness :
    parseCore (serNode (.arr [.int (-5), .str (bytes "x")])) true =
      .ok (canonN (.arr [.int (-5), .str (bytes "x")]), []) ∧
    JEquiv (canonN (.arr [.int (-5), .str (bytes "x")]))
      (.arr [.int (-5), .str (bytes "x")]) := by
  refine claim_C1_roundtrip _ (.arr _ ?_)
  intro x hx
  rcases List.mem_cons.mp hx with h | h
  · rw [h]
    exact .int (-5) (by decide) (by decide)
  · rw [List.mem_singleton] at h
    rw [h]
    exact .str _ (.ascii 120 [] (by decide) (by decide) .nil)

/-- Counterexample to C1 as stated: a string holding the 4-byte UTF-8 encoding of U+1F34C
serializes with a stray third escape, so the round trip returns different bytes. -/
theorem claim_C1_counterexample :
    parseCore (serNode (.str [0xF0, 0x9F, 0x8D, 0x8C])) true =
      .ok (.str [0xF0, 0x9F, 0x8D, 0x8C, 0xEF, 0x8D, 0x8C], []) ∧
    ¬JEquiv (.str [0xF0, 0x9F, 0x8D, 0x8C, 0xEF, 0x8D, 0x8C]) (.str [0xF0, 0x9F, 0x8D, 0x8C]) := by
  constructor
  · rfl
  · intro h
    cases h


/-! C2 -/

/-- C2: the three boundary literals parse to the maximum `uint64`, the minimum `int64`, and
a double respectively. -/
theorem claim_C2_numeric_fidelity :
    parseCore (bytes "18446744073709551615") true = .ok (.uint 18446744073709551615, []) ∧
    parseCore (bytes "-9223372036854775808") true = .ok (.int (-9223372036854775808), []) ∧
    (∃ q : ℚ, parseCore (bytes "18446744073709551616") true = .ok (.double q, [])) := by
  set_option maxRecDepth 8192 in
  exact ⟨rfl, rfl, ⟨_, rfl⟩⟩

/-! C4 -/

/-- C4: `streamParse` catches every loop error, reports incompleteness and hands back the
partial tree; on the truncated object it returns key `a` mapped to 1 (and a null slot for
`b`), while `parse` of the same text fails with `UnexpectedEndOfInput`. -/
theorem claim_C4_stream_catches :
    (∀ (input : List Nat) (c : JsonErrorCode) (part : JsonNode),
        parseLoop (input.length + 1) .null [] input = some (.err c part) →
        streamParse input = (part, false)) ∧
    streamParse (bytes "\x7b\"a\": 1, \"b\":") =
      (.obj [(bytes "a", .uint 1), (bytes "b", .null)], false) ∧
    objFind (bytes "a") [(bytes "a", .uint 1), (bytes "b", .null)] = some (.uint 1) ∧
    parseCore (bytes "\x7b\"a\": 1, \"b\":") true = .error .UnexpectedEndOfInput := by
  refine ⟨?_, rfl, rfl, rfl⟩
  intro input c part h
  simp [streamParse, h]

theorem claim_C4_witness :
    streamParse (bytes "[") = (.arr [], false) :=
  claim_C4_stream_catches.1 (bytes "[") .UnexpectedEndOfInput (.arr []) rfl

/-! C5 -/

/-- C5: with end-checking on, trailing non-whitespace is `InvalidJson`; with an offset the end
check is off and the offset advances past each value, reading the five values of the buffer
`null true false 1 \x22x\x22` in sequence. -/
theorem claim_C5_checkEnd :
    (∀ (input : List Nat) (root : JsonNode) (rest : List Nat),
        parseLoop (input.length + 1) .null [] input = some (.ok root rest) →
        skipSpace rest ≠ [] → parseCore input true = .error .InvalidJson) ∧
    (∀ (input : List Nat) (e : JsonErrorCode),
        parseCore input true = .error e → parseSV input none = .error e) ∧
    parseSV (bytes "null true false 1 \"x\"") (some 0) = .ok (.null, 5) ∧
    parseSV (bytes "null true false 1 \"x\"") (some 5) = .ok (.bool true, 10) ∧
    parseSV (bytes "null true false 1 \"x\"") (some 10) = .ok (.bool false, 16) ∧
    parseSV (bytes "null true false 1 \"x\"") (some 16) = .ok (.uint 1, 18) ∧
    parseSV (bytes "null true false 1 \"x\"") (some 18) = .ok (.str (bytes "x"), 21) := by
  refine ⟨?_, ?_, rfl, rfl, rfl, rfl, rfl⟩
  · intro input root rest h hne
    simp [parseCore, h, List.isEmpty_iff, hne]
  · intro input e h
    simp [parseSV, h]

theorem claim_C5_witness :
    parseCore (bytes "1 2") true = .error .InvalidJson :=
  claim_C5_checkEnd.1 (bytes "1 2") (.uint 1) (bytes " 2") rfl (by decide)

/-! C6 -/

/-- Counterexample to C6 as stated: mutable positional indexing of a non-array does not
auto-vivify; it throws. -/
theorem claim_C6_counterexample :
    idxMutAcc .null 0 = .typeError ∧
      ∀ v : JsonNode, idxMutAcc .null 0 ≠ .ok v := by
  exact ⟨rfl, fun v h => by simp [idxMutAcc] at h⟩

/-- C6 (amended): the mutable `str`/`arr`/`obj` accessors replace a mismatching node with the
empty container; mutable key indexing auto-vivifies objects; but positional `operator[]` on a
non-array throws (no auto-vivification, contrary to the claim as stated); const accessors and
`at` throw on every tag mismatch, and `at` on an out-of-range index or a missing key throws
the range error. -/
theorem claim_C6_accessors_amended :
    (∀ n : JsonNode, isStrB n = false → strMutAcc n = (.str [], [])) ∧
    (∀ s, strMutAcc (.str s) = (.str s, s)) ∧
    (∀ n : JsonNode, isArrB n = false → arrMutAcc n = (.arr [], [])) ∧
    (∀ a, arrMutAcc (.arr a) = (.arr a, a)) ∧
    (∀ n : JsonNode, isObjB n = false → objMutAcc n = (.obj [], [])) ∧
    (∀ o, objMutAcc (.obj o) = (.obj o, o)) ∧
    (∀ (n : JsonNode) (k : List Nat), isObjB n = false →
        keyMutAcc n k = (.obj [(k, .null)], .null)) ∧
    (∀ (o : JsonObj) (k : List Nat), objFind k o = none →
        keyMutAcc (.obj o) k = (.obj (objInsert k .null o), .null)) ∧
    (∀ n : JsonNode, isStrB n = false → strConstAcc n = .typeError) ∧
    (∀ n : JsonNode, isArrB n = false → arrConstAcc n = .typeError) ∧
    (∀ n : JsonNode, isObjB n = false → objConstAcc n = .typeError) ∧
    (∀ (n : JsonNode) (i : Nat), isArrB n = false →
        idxMutAcc n i = .typeError ∧ idxConstAcc n i = .typeError ∧ atIdxAcc n i = .typeError) ∧
    (∀ (n : JsonNode) (k : List Nat), isObjB n = false → atKeyAcc n k = .typeError) ∧
    (∀ (a : List JsonNode) (i : Nat), a.length ≤ i → atIdxAcc (.arr a) i = .rangeError) ∧
    (∀ (o : JsonObj) (k : List Nat), objFind k o = none → atKeyAcc (.obj o) k = .rangeError) := by
  refine ⟨?_, fun s => rfl, ?_, fun a => rfl, ?_, fun o => rfl, ?_, ?_, ?_, ?_, ?_, ?_, ?_,
    ?_, ?_⟩
  · intro n h; cases n <;> simp_all [isStrB, strMutAcc]
  · intro n h; cases n <;> simp_all [isArrB, arrMutAcc]
  · intro n h; cases n <;> simp_all [isObjB, objMutAcc]
  · intro n k h; cases n <;> simp_all [isObjB, keyMutAcc]
  · intro o k h; simp [keyMutAcc, h]
  · intro n h; cases n <;> simp_all [isStrB, strConstAcc]
  · intro n h; cases n <;> simp_all [isArrB, arrConstAcc]
  · intro n h; cases n <;> simp_all [isObjB, objConstAcc]
  · intro n i h; cases n <;> simp_all [isArrB, idxMutAcc, idxConstAcc, atIdxAcc]
  · intro n k h; cases n <;> simp_all [isObjB, atKeyAcc]
  · intro a i h
    have hg : a.get? i = none := List.get?_eq_none.mpr h
    show (match a.get? i with
      | some v => AccessResult.ok v
      | none => AccessResult.rangeError) = AccessResult.rangeError
    rw [hg]
  · intro o k h; simp [atKeyAcc, h]

theorem claim_C6_witness :
    strMutAcc .null = (.str [], []) ∧ atKeyAcc (.uint 7) (bytes "k") = .typeError ∧
      atIdxAcc (.arr []) 0 = .rangeError ∧ atKeyAcc (.obj []) (bytes "k") = .rangeError :=
  ⟨claim_C6_accessors_amended.1 .null rfl,
    claim_C6_accessors_amended.2.2.2.2.2.2.2.2.2.2.2.2.1 (.uint 7) (bytes "k") rfl,
    claim_C6_accessors_amended.2.2.2.2.2.2.2.2.2.2.2.2.2.1 [] 0 (Nat.le_refl 0),
    claim_C6_accessors_amended.2.2.2.2.2.2.2.2.2.2.2.2.2.2 [] (bytes "k") rfl⟩


/-! C10 -/

/-- C10: a lone low-surrogate escape is accepted and appends the three-byte UTF-8-style
encoding of the surrogate code point. -/
theorem claim_C10_lone_low_surrogate :
    ∀ (c1 c2 c3 c4 v1 v2 v3 v4 u : Nat) (rest : List Nat),
      hexDigitVal c1 = some v1 → hexDigitVal c2 = some v2 →
      hexDigitVal c3 = some v3 → hexDigitVal c4 = some v4 →
      u = ((v1 <<< 4 ||| v2) <<< 4 ||| v3) <<< 4 ||| v4 →
      0xDC00 ≤ u → u ≤ 0xDFFF →
      parseEscape (117 :: c1 :: c2 :: c3 :: c4 :: rest) =
        .ok ([0xE0 ||| (u >>> 12 &&& 0xFF), 0x80 ||| (u >>> 6 &&& 0x3F),
              0x80 ||| (u &&& 0x3F)], rest) := by
  intro c1 c2 c3 c4 v1 v2 v3 v4 u rest h1 h2 h3 h4 hu hlo hhi
  subst hu
  have hn1 : ¬(((v1 <<< 4 ||| v2) <<< 4 ||| v3) <<< 4 ||| v4 ≤ 0xDBFF) := by omega
  have e1 : ¬(((v1 <<< 4 ||| v2) <<< 4 ||| v3) <<< 4 ||| v4 ≤ 0x7F) := by omega
  have e2 : ¬(((v1 <<< 4 ||| v2) <<< 4 ||| v3) <<< 4 ||| v4 ≤ 0x7FF) := by omega
  have e3 : ((v1 <<< 4 ||| v2) <<< 4 ||| v3) <<< 4 ||| v4 ≤ 0xFFFF := by omega
  simp [parseEscape, parseHex4_ok c1 c2 c3 c4 v1 v2 v3 v4 rest h1 h2 h3 h4, hn1,
    encodeUtf8, e1, e2, e3]

theorem claim_C10_witness :
    parseEscape (bytes "udc00\"") = .ok ([0xED, 0xB0, 0x80], [34]) := by
  have := claim_C10_lone_low_surrogate 100 99 48 48 13 12 0 0 0xDC00 [34]
    rfl rfl rfl rfl (by decide) (by decide) (by decide)
  exact this

/-! C3 -/

theorem parseHex4_ok_inv (s : List Nat) (u : Nat) (r : List Nat)
    (h : parseHex4 s = .ok (u, r)) :
    ∃ c1 c2 c3 c4 v1 v2 v3 v4, s = c1 :: c2 :: c3 :: c4 :: r ∧
      hexDigitVal c1 = some v1 ∧ hexDigitVal c2 = some v2 ∧ hexDigitVal c3 = some v3 ∧
      hexDigitVal c4 = some v4 ∧ u = ((v1 <<< 4 ||| v2) <<< 4 ||| v3) <<< 4 ||| v4 := by
  cases s with
  | nil => simp [parseHex4, parseHex4Step] at h
  | cons c1 s =>
    cases h1 : hexDigitVal c1 with
    | none => simp [parseHex4, parseHex4Step, h1] at h
    | some v1 =>
      cases s with
      | nil => simp [parseHex4, parseHex4Step, h1] at h
      | cons c2 s =>
        cases h2 : hexDigitVal c2 with
        | none => simp [parseHex4, parseHex4Step, h1, h2] at h
        | some v2 =>
          cases s with
          | nil => simp [parseHex4, parseHex4Step, h1, h2] at h
          | cons c3 s =>
            cases h3 : hexDigitVal c3 with
            | none => simp [parseHex4, parseHex4Step, h1, h2, h3] at h
            | some v3 =>
              cases s with
              | nil => simp [parseHex4, parseHex4Step, h1, h2, h3] at h
              | cons c4 s =>
                cases h4 : hexDigitVal c4 with
                | none => simp [parseHex4, parseHex4Step, h1, h2, h3, h4] at h
                | some v4 =>
                  simp [parseHex4, parseHex4Step, h1, h2, h3, h4] at h
                  exact ⟨c1, c2, c3, c4, v1, v2, v3, v4, by rw [h.2], h1, h2, h3, h4,
                    h.1.symm⟩

theorem parseHex4_error_eq (s : List Nat) (e : JsonErrorCode)
    (h : parseHex4 s = .error e) :
    e = (if decide (s.length < 4) && s.all (fun c => (hexDigitVal c).isSome) then
      JsonErrorCode.InvalidString else .InvalidUnicode) := by
  cases s with
  | nil => simp_all [parseHex4, parseHex4Step]
  | cons c1 s =>
    cases h1 : hexDigitVal c1 with
    | none => simp_all [parseHex4, parseHex4Step, h1]
    | some v1 =>
      cases s with
      | nil => simp_all [parseHex4, parseHex4Step, h1]
      | cons c2 s =>
        cases h2 : hexDigitVal c2 with
        | none => simp_all [parseHex4, parseHex4Step, h1, h2]
        | some v2 =>
          cases s with
          | nil => simp_all [parseHex4, parseHex4Step, h1, h2]
          | cons c3 s =>
            cases h3 : hexDigitVal c3 with
            | none => simp_all [parseHex4, parseHex4Step, h1, h2, h3]
            | some v3 =>
              cases s with
              | nil => simp_all [parseHex4, parseHex4Step, h1, h2, h3]
              | cons c4 s =>
                cases h4 : hexDigitVal c4 with
                | none => simp_all [parseHex4, parseHex4Step, h1, h2, h3, h4]
                | some v4 => simp_all [parseHex4, parseHex4Step, h1, h2, h3, h4]

theorem isTruncHex_eq_false (rest : List Nat) (h : ∀ s2 : List Nat, rest ≠ 92 :: 117 :: s2) :
    isTruncHex rest = false := by
  unfold isTruncHex
  split
  · rename_i s2
    exact absurd rfl (h s2)
  · rfl

/-- C3 (amended): the surrogate pair round-trips to the UTF-8 bytes of U+1F34C; a high
surrogate not followed by a low-surrogate escape fails, with `InvalidUnicode` except when the
rest is a truncated all-hex `\u` escape at end of input (then `InvalidString` — see the
counterexample). -/
theorem claim_C3_amended :
    parseCore (bytes "\"\\ud83c\\udf4c\"") true = .ok (.str [0xF0, 0x9F, 0x8D, 0x8C], []) ∧
    encodeUtf8 0x1F34C = [0xF0, 0x9F, 0x8D, 0x8C] ∧
    (∀ (c1 c2 c3 c4 v1 v2 v3 v4 u : Nat) (rest : List Nat),
      hexDigitVal c1 = some v1 → hexDigitVal c2 = some v2 →
      hexDigitVal c3 = some v3 → hexDigitVal c4 = some v4 →
      u = ((v1 <<< 4 ||| v2) <<< 4 ||| v3) <<< 4 ||| v4 →
      0xD800 ≤ u → u ≤ 0xDBFF →
      isLowSurrEsc rest = false →
      parseEscape (117 :: c1 :: c2 :: c3 :: c4 :: rest) =
        .error (if isTruncHex rest then .InvalidString else .InvalidUnicode)) := by
  refine ⟨rfl, rfl, ?_⟩
  intro c1 c2 c3 c4 v1 v2 v3 v4 u rest h1 h2 h3 h4 hu hlo hhi hlowF
  subst hu
  revert hlowF
  simp only [parseEscape, parseHex4_ok c1 c2 c3 c4 v1 v2 v3 v4 rest h1 h2 h3 h4]
  rw [if_neg (by simp) , if_neg (by simp), if_neg (by simp), if_neg (by simp),
    if_neg (by simp), if_neg (by simp), if_pos (by simp),
    if_pos (by simp [hlo, hhi])]
  split
  · rename_i s2
    intro hlowF
    cases hph : parseHex4 s2 with
    | error e2 =>
      have he := parseHex4_error_eq s2 e2 hph
      have htr : isTruncHex (92 :: 117 :: s2) =
          (decide (s2.length < 4) && s2.all fun c => (hexDigitVal c).isSome) := by
        simp [isTruncHex]
      rw [htr, ← he]
    | ok pr =>
      obtain ⟨u2, r2⟩ := pr
      obtain ⟨d1, d2, d3, d4, w1, w2, w3, w4, hs, g1, g2, g3, g4, hu2⟩ :=
        parseHex4_ok_inv s2 u2 r2 hph
      by_cases hrange : 0xDC00 ≤ u2 ∧ u2 ≤ 0xDFFF
      · exfalso
        rw [hs] at hlowF
        rw [show isLowSurrEsc (92 :: 117 :: d1 :: d2 :: d3 :: d4 :: r2) =
            (0xDC00 ≤ ((w1 <<< 4 ||| w2) <<< 4 ||| w3) <<< 4 ||| w4 &&
              ((w1 <<< 4 ||| w2) <<< 4 ||| w3) <<< 4 ||| w4 ≤ 0xDFFF) by
          simp [isLowSurrEsc, g1, g2, g3, g4]] at hlowF
        rw [← hu2] at hlowF
        simp [hrange.1, hrange.2] at hlowF
      · have hcond : (u2 < 0xDC00 || 0xDFFF < u2) = true := by
          rcases Nat.lt_or_ge u2 0xDC00 with h | h
          · simp [h]
          · have h' : 0xDFFF < u2 := by omega
            simp [h']
        have htr : isTruncHex (92 :: 117 :: s2) = false := by
          rw [hs]
          have hlen : ¬((d1 :: d2 :: d3 :: d4 :: r2).length < 4) := by
            simp
          simp [isTruncHex, hlen]
        rw [htr]
        simp [hcond]
  · rename_i hnm
    intro _
    have hm : isTruncHex rest = false :=
      isTruncHex_eq_false rest (fun s2 hh => hnm s2 hh)
    simp [hm]

/-- C7: every object a successful parse returns is strictly key-sorted (hence has unique,
ordered keys), and on the duplicate-key input the value is the last one parsed. -/
theorem claim_C7_duplicate_keys :
    (∀ (input : List Nat) (checkEnd : Bool) (root : JsonNode) (rest : List Nat),
        parseCore input checkEnd = .ok (root, rest) → WFNode root) ∧
    parseCore (bytes "\x7b\"a\":1,\"a\":2\x7d") true = .ok (.obj [(bytes "a", .uint 2)], []) ∧
    parseCore (bytes "\x7b\"b\":1,\"a\":2\x7d") true =
      .ok (.obj [(bytes "a", .uint 2), (bytes "b", .uint 1)], []) := by
  refine ⟨?_, rfl, rfl⟩
  intro input checkEnd root rest h
  unfold parseCore at h
  cases hp : parseLoop (input.length + 1) .null [] input with
  | none =>
    rw [hp] at h
    simp at h
  | some r =>
    cases r with
    | err c part =>
      rw [hp] at h
      simp at h
    | ok root' rest' =>
      rw [hp] at h
      dsimp only at h
      split at h
      · simp at h
      · simp only [Except.ok.injEq, Prod.mk.injEq] at h
        rw [← h.1]
        exact parseLoop_wf _ _ _ _ _ _ WFNode.null (by intro f hf; simp at hf) hp

theorem claim_C7_witness : WFNode (.obj [(bytes "a", .uint 1)]) :=
  claim_C7_duplicate_keys.1 (bytes "\x7b\"a\":1\x7d") true (.obj [(bytes "a", .uint 1)]) [] rfl


/-- Counterexample to C3 as stated: a high-surrogate escape followed by a truncated
`\u` escape fails with `InvalidString`, not `InvalidUnicode`. -/
theorem claim_C3_counterexample :
    parseCore (bytes "\"\\ud800\\u") true = .error .InvalidString ∧
    JsonErrorCode.InvalidString ≠ JsonErrorCode.InvalidUnicode := by
  exact ⟨rfl, by decide⟩

theorem claim_C3_witness :
    parseEscape (bytes "ud800\"") = .error .InvalidUnicode := by
  have := claim_C3_amended.2.2 100 56 48 48 13 8 0 0 0xD800 [34]
    rfl rfl rfl rfl (by decide) (by decide) (by decide) (by decide)
  simpa [isTruncHex] using this
